import Mathlib

/-!
# Verification of the molecule_viewer core against its specification

Shallow embedding of the molecule viewer's core algorithms:

* the orbital camera model (`src/components/viewer/hooks/useCameraControls.tsx`):
  `zoom`, `updateMomentum`;
* the ray/sphere picking test (`src/components/viewer/utils/raycast.ts`):
  `intersectSphere`;
* the sphere mesh generator (`src/components/viewer/utils/geometry.ts`):
  `createSphereGeometry`;
* the ribbon mesh generator (`src/components/viewer/utils/shaders.ts`):
  `createRibbonGeometry`;
* the structure parser (`src/components/viewer/utils/pdbParser.ts`):
  `parsePdbLine`, `parseAtomsWithMetadata`, `getAtomProperties`.

JavaScript numbers are modelled as exact rationals (`ℚ`); IEEE-754 rounding is
abstracted away.  Where a JavaScript value can be `NaN` or `±Infinity` because
it comes from `parseFloat`/`parseInt` (the structure parser), numbers are
modelled by the four-constructor type `JNum` instead, so that NaN propagation
through the parser is represented faithfully.  The transcendental kernel
(`Math.sin`, `Math.cos`, `Math.sqrt`, `Math.PI`) is taken as a parameter of
the geometry generators: every theorem below holds for an arbitrary
interpretation of those functions, which in particular covers the real ones.
-/

namespace MoleculeViewer

/-- A 3-vector of rationals, modelling a JavaScript `[number, number, number]`
triple (exact-arithmetic model). -/
structure Vec3 where
  x : ℚ
  y : ℚ
  z : ℚ
deriving DecidableEq, Repr

def Vec3.add (a b : Vec3) : Vec3 := ⟨a.x + b.x, a.y + b.y, a.z + b.z⟩

def Vec3.sub (a b : Vec3) : Vec3 := ⟨a.x - b.x, a.y - b.y, a.z - b.z⟩

def Vec3.smul (s : ℚ) (a : Vec3) : Vec3 := ⟨s * a.x, s * a.y, s * a.z⟩

/-- Dot product of two vectors. -/
def Vec3.dot (a b : Vec3) : ℚ := a.x * b.x + a.y * b.y + a.z * b.z

/-- Squared euclidean norm. -/
def Vec3.normSq (a : Vec3) : ℚ := a.x * a.x + a.y * a.y + a.z * a.z

/-! ## Camera model — `src/components/viewer/hooks/useCameraControls.tsx` -/

/-- `CameraState` from `src/components/viewer/types.ts`. -/
structure CameraState where
  rotation : ℚ × ℚ
  distance : ℚ
  target : Vec3
  position : Vec3
  velocity : Vec3
deriving DecidableEq, Repr

/-- `const MOMENTUM_DECAY = 0.95`. -/
def MOMENTUM_DECAY : ℚ := 95 / 100

/-- `const MIN_VELOCITY = 0.001`. -/
def MIN_VELOCITY : ℚ := 1 / 1000

/-- One state-update step of `updateMomentum` from `useCameraControls.tsx`
(the body of the `setCamera` callback; the `requestAnimationFrame`
re-scheduling is the iteration modelled by `momentumIter`).  The condition of
the `if` is the JS `newVelocity.some((v) => Math.abs(v) > MIN_VELOCITY)`. -/
def updateMomentum (prev : CameraState) : CameraState :=
  let newVelocity : Vec3 :=
    ⟨prev.velocity.x * MOMENTUM_DECAY, prev.velocity.y * MOMENTUM_DECAY,
     prev.velocity.z * MOMENTUM_DECAY⟩
  if |newVelocity.x| > MIN_VELOCITY ∨ |newVelocity.y| > MIN_VELOCITY ∨
      |newVelocity.z| > MIN_VELOCITY then
    { prev with
      position := prev.position.add newVelocity
      target := prev.target.add newVelocity
      velocity := newVelocity }
  else
    { prev with velocity := ⟨0, 0, 0⟩ }

/-- `n` frames of momentum integration. -/
def momentumIter (n : ℕ) (s : CameraState) : CameraState :=
  Nat.iterate updateMomentum n s

/-- `zoom` from `useCameraControls.tsx`: multiply `distance` by `0.95`
(`delta > 0`) or `1/0.95` (otherwise), clamp into `[1, 100]`, zero the
velocity. -/
def zoom (delta : ℚ) (prev : CameraState) : CameraState :=
  let zoomFactor : ℚ := 95 / 100
  let factor : ℚ := if delta > 0 then zoomFactor else 1 / zoomFactor
  { prev with
    distance := max 1 (min 100 (prev.distance * factor))
    velocity := ⟨0, 0, 0⟩ }

/-- A finite sequence of `zoom` calls, applied in order. -/
def applyZooms (ds : List ℚ) (s : CameraState) : CameraState :=
  ds.foldl (fun st d => zoom d st) s

lemma zoom_distance_bounds (d : ℚ) (s : CameraState) :
    1 ≤ (zoom d s).distance ∧ (zoom d s).distance ≤ 100 := by
  unfold zoom
  constructor
  · exact le_max_left _ _
  · simp only
    have h1 : min 100 (s.distance * (if d > 0 then (95:ℚ)/100 else 1/(95/100))) ≤ 100 :=
      min_le_left _ _
    exact max_le (by norm_num) h1

lemma applyZooms_bounds (ds : List ℚ) (s : CameraState)
    (h1 : 1 ≤ s.distance) (h2 : s.distance ≤ 100) :
    1 ≤ (applyZooms ds s).distance ∧ (applyZooms ds s).distance ≤ 100 := by
  induction ds generalizing s with
  | nil => exact ⟨h1, h2⟩
  | cons d ds ih =>
    have hb := zoom_distance_bounds d s
    exact ih (zoom d s) hb.1 hb.2

/-- Claim C6: starting from any camera state with `distance ∈ [1, 100]`, every
finite sequence of `zoom` calls keeps `distance` inside `[1, 100]`, and each
single `zoom` call moves `distance` monotonically in the direction given by
the sign of `delta` (zoom-in for positive `delta`, zoom-out for negative),
up to the clamp. -/
theorem zoom_bounded_and_monotone (s : CameraState)
    (h1 : 1 ≤ s.distance) (h2 : s.distance ≤ 100) :
    (∀ ds : List ℚ,
      1 ≤ (applyZooms ds s).distance ∧ (applyZooms ds s).distance ≤ 100) ∧
    (∀ d : ℚ, 0 < d → (zoom d s).distance ≤ s.distance) ∧
    (∀ d : ℚ, d < 0 → s.distance ≤ (zoom d s).distance) := by
  refine ⟨fun ds => applyZooms_bounds ds s h1 h2, fun d hd => ?_, fun d hd => ?_⟩
  · unfold zoom
    simp only [if_pos hd]
    have hmin : min 100 (s.distance * (95/100)) ≤ s.distance := by
      refine le_trans (min_le_right _ _) ?_
      nlinarith
    exact max_le h1 hmin
  · unfold zoom
    have hnd : ¬ d > 0 := not_lt.mpr hd.le
    simp only [if_neg hnd]
    have hle : s.distance ≤ s.distance * (1 / (95/100)) := by nlinarith
    have hmin : s.distance ≤ min 100 (s.distance * (1 / (95/100))) :=
      le_min h2 hle
    exact le_trans hmin (le_max_right _ _)

/-- Witness for `zoom_bounded_and_monotone` at a concrete camera state
(the viewer's initial state, `distance = 50`). -/
def camera0 : CameraState :=
  { rotation := (0, 0), distance := 50, target := ⟨0, 0, 0⟩,
    position := ⟨0, 0, 0⟩, velocity := ⟨0, 0, 0⟩ }

theorem zoom_bounded_and_monotone_witness :
    (1 ≤ camera0.distance ∧ camera0.distance ≤ 100) ∧
    ((∀ ds : List ℚ,
        1 ≤ (applyZooms ds camera0).distance ∧
          (applyZooms ds camera0).distance ≤ 100) ∧
      (∀ d : ℚ, 0 < d → (zoom d camera0).distance ≤ camera0.distance) ∧
      (∀ d : ℚ, d < 0 → camera0.distance ≤ (zoom d camera0).distance)) :=
  ⟨⟨by norm_num [camera0], by norm_num [camera0]⟩,
    zoom_bounded_and_monotone camera0 (by norm_num [camera0])
      (by norm_num [camera0])⟩

/-! ### Momentum termination (C7) and the pan/target offset invariant (C10) -/

lemma updateMomentum_velocity_zero (s : CameraState)
    (h : s.velocity = ⟨0, 0, 0⟩) : updateMomentum s = s := by
  obtain ⟨rot, dist, tgt, pos, vel⟩ := s
  simp only at h
  subst h
  simp [updateMomentum, MOMENTUM_DECAY, MIN_VELOCITY]

lemma momentumIter_succ (n : ℕ) (s : CameraState) :
    momentumIter (n + 1) s = updateMomentum (momentumIter n s) := by
  unfold momentumIter
  rw [Function.iterate_succ_apply']

/-- Velocity after `n` frames, when no stop has occurred yet, is the initial
velocity decayed `n` times; otherwise it is exactly zero. -/
lemma momentumIter_velocity (s : CameraState) (n : ℕ) :
    (momentumIter n s).velocity =
      ⟨s.velocity.x * MOMENTUM_DECAY ^ n, s.velocity.y * MOMENTUM_DECAY ^ n,
        s.velocity.z * MOMENTUM_DECAY ^ n⟩ ∨
    (momentumIter n s).velocity = ⟨0, 0, 0⟩ := by
  induction n with
  | zero =>
    left
    simp [momentumIter]
  | succ n ih =>
    rw [momentumIter_succ]
    rcases ih with h | h
    · unfold updateMomentum
      rw [h]
      by_cases hm : (|s.velocity.x * MOMENTUM_DECAY ^ n * MOMENTUM_DECAY| > MIN_VELOCITY ∨
          |s.velocity.y * MOMENTUM_DECAY ^ n * MOMENTUM_DECAY| > MIN_VELOCITY ∨
          |s.velocity.z * MOMENTUM_DECAY ^ n * MOMENTUM_DECAY| > MIN_VELOCITY)
      · left
        rw [if_pos hm]
        show (⟨_, _, _⟩ : Vec3) = _
        congr 1 <;> ring
      · right
        rw [if_neg hm]
    · rw [updateMomentum_velocity_zero _ h]
      right
      exact h

lemma momentumIter_velocity_zero_mono (s : CameraState) {n m : ℕ}
    (hnm : n ≤ m) (h : (momentumIter n s).velocity = ⟨0, 0, 0⟩) :
    (momentumIter m s).velocity = ⟨0, 0, 0⟩ := by
  obtain ⟨k, rfl⟩ := Nat.exists_eq_add_of_le hnm
  clear hnm
  induction k with
  | zero => exact h
  | succ k ih =>
    have : n + (k + 1) = (n + k) + 1 := by omega
    rw [this, momentumIter_succ, updateMomentum_velocity_zero _ ih]
    exact ih

/-- Claim C7: for every initial camera state (in particular the state produced
by a pan, which sets `velocity` and starts the momentum loop), the momentum
integration reaches `velocity = [0,0,0]` after a bounded number of frames and
stays there: the loop's stopping condition (`every |component| ≤ 0.001` after
decay) is eventually met because the velocity decays geometrically. -/
theorem momentum_terminates (s : CameraState) :
    ∃ N : ℕ, ∀ n : ℕ, N ≤ n → (momentumIter n s).velocity = ⟨0, 0, 0⟩ := by
  -- a uniform bound on the three components
  set M : ℚ := max |s.velocity.x| (max |s.velocity.y| |s.velocity.z|) with hM
  have hM0 : 0 ≤ M := le_trans (abs_nonneg _) (le_max_left _ _)
  have hMx : |s.velocity.x| ≤ M := le_max_left _ _
  have hMy : |s.velocity.y| ≤ M := le_trans (le_max_left _ _) (le_max_right _ _)
  have hMz : |s.velocity.z| ≤ M := le_trans (le_max_right _ _) (le_max_right _ _)
  have hM1 : (0:ℚ) < M + 1 := by linarith
  obtain ⟨n, hn⟩ := exists_pow_lt_of_lt_one
    (show (0:ℚ) < MIN_VELOCITY / (M + 1) from
      div_pos (by norm_num [MIN_VELOCITY]) hM1)
    (show MOMENTUM_DECAY < 1 by norm_num [MOMENTUM_DECAY])
  have hdec0 : (0:ℚ) ≤ MOMENTUM_DECAY := by norm_num [MOMENTUM_DECAY]
  have hdecle : MOMENTUM_DECAY ≤ 1 := by norm_num [MOMENTUM_DECAY]
  have h2 : MOMENTUM_DECAY ^ n * (M + 1) < MIN_VELOCITY := by
    have := (lt_div_iff₀ hM1).mp hn
    linarith
  have hkey : ∀ c : ℚ, |c| ≤ M → |c * MOMENTUM_DECAY ^ n * MOMENTUM_DECAY| ≤ MIN_VELOCITY := by
    intro c hc
    have hpow : (0:ℚ) ≤ MOMENTUM_DECAY ^ n := pow_nonneg hdec0 n
    have h1 : |c * MOMENTUM_DECAY ^ n * MOMENTUM_DECAY| =
        |c| * MOMENTUM_DECAY ^ n * MOMENTUM_DECAY := by
      rw [abs_mul, abs_mul, abs_of_nonneg hpow, abs_of_nonneg hdec0]
    rw [h1]
    have e1 : |c| * MOMENTUM_DECAY ^ n * MOMENTUM_DECAY ≤ |c| * MOMENTUM_DECAY ^ n := by
      have h0 : 0 ≤ |c| * MOMENTUM_DECAY ^ n := mul_nonneg (abs_nonneg c) hpow
      nlinarith
    have e2 : |c| * MOMENTUM_DECAY ^ n ≤ M * MOMENTUM_DECAY ^ n :=
      mul_le_mul_of_nonneg_right hc hpow
    nlinarith
  refine ⟨n + 1, fun m hm => ?_⟩
  have hstep : (momentumIter (n + 1) s).velocity = ⟨0, 0, 0⟩ := by
    rcases momentumIter_velocity s n with h | h
    · rw [momentumIter_succ]
      unfold updateMomentum
      rw [h]
      have hnm : ¬ (|s.velocity.x * MOMENTUM_DECAY ^ n * MOMENTUM_DECAY| > MIN_VELOCITY ∨
          |s.velocity.y * MOMENTUM_DECAY ^ n * MOMENTUM_DECAY| > MIN_VELOCITY ∨
          |s.velocity.z * MOMENTUM_DECAY ^ n * MOMENTUM_DECAY| > MIN_VELOCITY) := by
        push_neg
        exact ⟨not_lt.mp (not_lt.mpr (hkey _ hMx)),
          not_lt.mp (not_lt.mpr (hkey _ hMy)), not_lt.mp (not_lt.mpr (hkey _ hMz))⟩
      rw [if_neg hnm]
    · exact momentumIter_velocity_zero_mono s (Nat.le_succ n) h
  exact momentumIter_velocity_zero_mono s hm hstep

/-- Claim C10: one momentum integration step adds the same decayed velocity
vector to `position` and `target` (or leaves both untouched in the stopping
branch), so the offset `position - target` is invariant under momentum. -/
theorem momentum_preserves_offset (s : CameraState) :
    (updateMomentum s).position.sub (updateMomentum s).target =
      s.position.sub s.target := by
  unfold updateMomentum
  by_cases hm : (|s.velocity.x * MOMENTUM_DECAY| > MIN_VELOCITY ∨
      |s.velocity.y * MOMENTUM_DECAY| > MIN_VELOCITY ∨
      |s.velocity.z * MOMENTUM_DECAY| > MIN_VELOCITY)
  · rw [if_pos hm]
    show Vec3.sub (Vec3.add _ _) (Vec3.add _ _) = _
    unfold Vec3.sub Vec3.add
    congr 1 <;> ring
  · rw [if_neg hm]

/-! ## Ray/sphere picking test — `src/components/viewer/utils/raycast.ts` -/

/-- `Ray` from `raycast.ts`: origin and direction in world space. -/
structure Ray where
  origin : Vec3
  direction : Vec3
deriving DecidableEq, Repr

/-- `intersectSphere` from `raycast.ts`: the quadratic-discriminant test.
Returns `true` iff `b² - 4ac ≥ 0` — the sign of the intersection parameter is
not examined. -/
def intersectSphere (ray : Ray) (center : Vec3) (radius : ℚ) : Bool :=
  let dx := ray.origin.x - center.x
  let dy := ray.origin.y - center.y
  let dz := ray.origin.z - center.z
  let a := ray.direction.x * ray.direction.x + ray.direction.y * ray.direction.y +
    ray.direction.z * ray.direction.z
  let b := 2 * (dx * ray.direction.x + dy * ray.direction.y + dz * ray.direction.z)
  let c := dx * dx + dy * dy + dz * dz - radius * radius
  decide (b * b - 4 * a * c ≥ 0)

/-- A point of the line carried by a ray, at parameter `t`. -/
def rayPoint (ray : Ray) (t : ℚ) : Vec3 := ray.origin.add (Vec3.smul t ray.direction)

/-- Claim C4, counterexample: a unit-direction ray whose sphere lies entirely
strictly behind the origin (every point of the sphere has negative component
along the ray direction, and the origin is outside the sphere) is still
reported as a hit by `intersectSphere`, because the test accepts any
non-negative discriminant regardless of the sign of the intersection
parameter.  Ray: origin `(0,0,0)`, direction `(0,0,1)`; sphere: center
`(0,0,-5)`, radius `1`. -/
theorem intersectSphere_behind_reports_hit :
    Vec3.normSq ⟨0, 0, 1⟩ = 1 ∧
    Vec3.normSq (Vec3.sub ⟨0, 0, 0⟩ ⟨0, 0, -5⟩) > 1 * 1 ∧
    (∀ p : Vec3, Vec3.normSq (Vec3.sub p ⟨0, 0, -5⟩) ≤ 1 * 1 →
      Vec3.dot (Vec3.sub p ⟨0, 0, 0⟩) ⟨0, 0, 1⟩ < 0) ∧
    intersectSphere ⟨⟨0, 0, 0⟩, ⟨0, 0, 1⟩⟩ ⟨0, 0, -5⟩ 1 = true := by
  refine ⟨by norm_num [Vec3.normSq], by norm_num [Vec3.normSq, Vec3.sub], ?_,
    by norm_num [intersectSphere]⟩
  intro p hp
  unfold Vec3.normSq Vec3.sub at hp
  unfold Vec3.dot Vec3.sub
  simp only at hp ⊢
  nlinarith [sq_nonneg (p.x - 0), sq_nonneg (p.y - 0), sq_nonneg (p.z + 5)]

/-- Claim C4, amended: with a normalized direction, a ray whose origin lies
inside the sphere reports a hit (whatever the direction), and the test
reports a hit exactly when the full line through the origin along the
direction meets the closed sphere — the sign of the intersection parameter is
ignored, so a sphere lying strictly behind the ray origin is also reported as
a hit (see `intersectSphere_behind_reports_hit`). -/
theorem intersectSphere_characterization (ray : Ray) (center : Vec3) (radius : ℚ)
    (hnorm : Vec3.normSq ray.direction = 1) :
    (Vec3.normSq (Vec3.sub ray.origin center) < radius * radius →
      intersectSphere ray center radius = true) ∧
    (intersectSphere ray center radius = true ↔
      ∃ t : ℚ, Vec3.normSq (Vec3.sub (rayPoint ray t) center) ≤ radius * radius) := by
  obtain ⟨⟨ox, oy, oz⟩, ⟨vx, vy, vz⟩⟩ := ray
  obtain ⟨cx, cy, cz⟩ := center
  simp only [Vec3.normSq] at hnorm
  constructor
  · intro hin
    simp only [Vec3.normSq, Vec3.sub] at hin
    simp only [intersectSphere, decide_eq_true_eq]
    rw [hnorm]
    nlinarith [sq_nonneg ((ox - cx) * vx + (oy - cy) * vy + (oz - cz) * vz), hin]
  · simp only [intersectSphere, decide_eq_true_eq]
    rw [hnorm]
    constructor
    · intro hdisc
      -- the vertex of the parabola realizes the minimum distance
      refine ⟨-((ox - cx) * vx + ((oy - cy) * vy + (oz - cz) * vz)), ?_⟩
      simp only [rayPoint, Vec3.add, Vec3.smul, Vec3.sub, Vec3.normSq]
      have hexp : ∀ t : ℚ,
          (ox + t * vx - cx) * (ox + t * vx - cx) +
            (oy + t * vy - cy) * (oy + t * vy - cy) +
            (oz + t * vz - cz) * (oz + t * vz - cz) =
          ((ox - cx) * (ox - cx) + (oy - cy) * (oy - cy) + (oz - cz) * (oz - cz)) +
            2 * t * ((ox - cx) * vx + (oy - cy) * vy + (oz - cz) * vz) +
            t * t * (vx * vx + vy * vy + vz * vz) := by
        intro t
        ring
      rw [hexp, hnorm]
      nlinarith [hdisc]
    · rintro ⟨t, ht⟩
      simp only [rayPoint, Vec3.add, Vec3.smul, Vec3.sub, Vec3.normSq] at ht
      nlinarith [sq_nonneg (t + ((ox - cx) * vx + (oy - cy) * vy + (oz - cz) * vz)), ht,
        hnorm, sq_nonneg t]

/-- Witness for `intersectSphere_characterization`: ray from the origin along
`z` against the unit sphere centered at `(0, 0, 1/2)` — the origin is inside,
and the test reports a hit. -/
theorem intersectSphere_characterization_witness :
    Vec3.normSq (⟨⟨0, 0, 0⟩, ⟨0, 0, 1⟩⟩ : Ray).direction = 1 ∧
    intersectSphere ⟨⟨0, 0, 0⟩, ⟨0, 0, 1⟩⟩ ⟨0, 0, 1/2⟩ 1 = true :=
  ⟨by norm_num [Vec3.normSq],
    (intersectSphere_characterization ⟨⟨0, 0, 0⟩, ⟨0, 0, 1⟩⟩ ⟨0, 0, 1/2⟩ 1
      (by norm_num [Vec3.normSq])).1 (by norm_num [Vec3.normSq, Vec3.sub])⟩

/-! ## Sphere mesh generator — `src/components/viewer/utils/geometry.ts`

`createSphereGeometry` evaluates `Math.sin`/`Math.cos` at the lat/long angles
`lat * π / segments` and `lon * 2π / segments`.  Since `π` is transcendental,
the composed maps `lat ↦ sin θ(lat)` etc. are taken as parameters
(`sinTheta`, `cosTheta`, `sinPhi`, `cosPhi`); every theorem holds for an
arbitrary interpretation, in particular for the real trigonometric one.
Indices are kept as naturals; the JS `Uint16Array` conversion can only reduce
a value, so the `< (n+1)²` bound is preserved by it. -/

/-- `GeometryData` from `geometry.ts`. -/
structure GeometryData where
  positions : List ℚ
  normals : List ℚ
  indices : List ℕ
deriving Repr

/-- `createSphereGeometry(radius, segments)` from `geometry.ts`: lat/long
tessellation with `(segments+1)²` vertices and `2·segments²` triangles. -/
def createSphereGeometry (sinTheta cosTheta sinPhi cosPhi : ℕ → ℚ)
    (radius : ℚ) (segments : ℕ) : GeometryData :=
  { positions :=
      (List.range (segments + 1)).flatMap fun lat =>
        (List.range (segments + 1)).flatMap fun lon =>
          let x := cosPhi lon * sinTheta lat
          let y := cosTheta lat
          let z := sinPhi lon * sinTheta lat
          [radius * x, radius * y, radius * z]
    normals :=
      (List.range (segments + 1)).flatMap fun lat =>
        (List.range (segments + 1)).flatMap fun lon =>
          let x := cosPhi lon * sinTheta lat
          let y := cosTheta lat
          let z := sinPhi lon * sinTheta lat
          [x, y, z]
    indices :=
      (List.range segments).flatMap fun lat =>
        (List.range segments).flatMap fun lon =>
          let first := lat * (segments + 1) + lon
          let second := first + segments + 1
          [first, second, first + 1, second, second + 1, first + 1] }

lemma length_flatMap_const {α β : Type} (l : List α) (f : α → List β) (k : ℕ)
    (h : ∀ a ∈ l, (f a).length = k) : (l.flatMap f).length = l.length * k := by
  induction l with
  | nil => simp
  | cons a l ih =>
    simp only [List.flatMap_cons, List.length_append, List.length_cons]
    rw [h a (List.mem_cons_self a l), ih (fun b hb => h b (List.mem_cons_of_mem a hb))]
    ring

/-- Claim C9: for every radius and segment count `n ≥ 1` (and any
interpretation of the trigonometric kernel), `createSphereGeometry` produces
`(n+1)²` vertices (3 floats each in `positions` and `normals`), exactly
`2·n·n` triangles (`6·n·n` index entries), all index entries strictly below
`(n+1)²`, and each normal equals the unit-sphere position before radius
scaling (`positions` is the pointwise radius-scaling of `normals`). -/
theorem createSphereGeometry_spec (sinTheta cosTheta sinPhi cosPhi : ℕ → ℚ)
    (radius : ℚ) (n : ℕ) (hn : 1 ≤ n) :
    (createSphereGeometry sinTheta cosTheta sinPhi cosPhi radius n).positions.length =
        3 * ((n + 1) * (n + 1)) ∧
    (createSphereGeometry sinTheta cosTheta sinPhi cosPhi radius n).normals.length =
        3 * ((n + 1) * (n + 1)) ∧
    (createSphereGeometry sinTheta cosTheta sinPhi cosPhi radius n).indices.length =
        6 * (n * n) ∧
    (∀ i ∈ (createSphereGeometry sinTheta cosTheta sinPhi cosPhi radius n).indices,
      i < (n + 1) * (n + 1)) ∧
    (createSphereGeometry sinTheta cosTheta sinPhi cosPhi radius n).positions =
      (createSphereGeometry sinTheta cosTheta sinPhi cosPhi radius n).normals.map
        (fun v => radius * v) := by
  have hlen : ∀ (g : ℕ → ℕ → List ℚ) (m k : ℕ), (∀ lat lon, (g lat lon).length = k) →
      ((List.range m).flatMap fun lat =>
        (List.range m).flatMap fun lon => g lat lon).length = m * (m * k) := by
    intro g m k hg
    rw [length_flatMap_const _ _ (m * k) (fun lat _ => ?_), List.length_range]
    rw [length_flatMap_const _ _ k (fun lon _ => hg lat lon), List.length_range]
  refine ⟨?_, ?_, ?_, ?_, ?_⟩
  · rw [show (createSphereGeometry sinTheta cosTheta sinPhi cosPhi radius n).positions.length
        = ((n+1) * ((n+1) * 3)) from hlen _ _ _ (fun _ _ => rfl)]
    ring
  · rw [show (createSphereGeometry sinTheta cosTheta sinPhi cosPhi radius n).normals.length
        = ((n+1) * ((n+1) * 3)) from hlen _ _ _ (fun _ _ => rfl)]
    ring
  · have hinner : ∀ lat : ℕ, ((List.range n).flatMap fun lon =>
        let first := lat * (n + 1) + lon
        let second := first + n + 1
        ([first, second, first + 1, second, second + 1, first + 1] : List ℕ)).length
        = n * 6 := by
      intro lat
      have h := length_flatMap_const (List.range n)
        (fun lon =>
          let first := lat * (n + 1) + lon
          let second := first + n + 1
          ([first, second, first + 1, second, second + 1, first + 1] : List ℕ))
        6 (fun lon _ => rfl)
      rw [h, List.length_range]
    have h6 : ((List.range n).flatMap fun lat =>
        (List.range n).flatMap fun lon =>
          let first := lat * (n + 1) + lon
          let second := first + n + 1
          ([first, second, first + 1, second, second + 1, first + 1] : List ℕ)).length
        = n * (n * 6) := by
      rw [length_flatMap_const _ _ (n * 6) (fun lat _ => hinner lat), List.length_range]
    rw [show (createSphereGeometry sinTheta cosTheta sinPhi cosPhi radius n).indices.length
        = (n * (n * 6)) from h6]
    ring
  · intro i hi
    simp only [createSphereGeometry, List.mem_flatMap, List.mem_range] at hi
    obtain ⟨lat, hlat, lon, hlon, hmem⟩ := hi
    have key : (lat + 1) * (n + 1) ≤ n * (n + 1) :=
      Nat.mul_le_mul_right _ hlat
    simp only [List.mem_cons, List.not_mem_nil, or_false] at hmem
    rcases hmem with h | h | h | h | h | h <;> subst h <;> nlinarith [key, hlon]
  · simp only [createSphereGeometry, List.map_flatMap]
    refine List.flatMap_congr (fun lat _ => ?_)
    refine List.flatMap_congr (fun lon _ => ?_)
    rfl

/-- Witness for `createSphereGeometry_spec` at `n = 2`, `radius = 3`, with the
zero interpretation of the trigonometric kernel. -/
theorem createSphereGeometry_spec_witness :
    (1 ≤ 2) ∧
    ((createSphereGeometry (fun _ => 0) (fun _ => 0) (fun _ => 0) (fun _ => 0)
        3 2).positions.length = 3 * ((2 + 1) * (2 + 1)) ∧
      (createSphereGeometry (fun _ => 0) (fun _ => 0) (fun _ => 0) (fun _ => 0)
        3 2).normals.length = 3 * ((2 + 1) * (2 + 1)) ∧
      (createSphereGeometry (fun _ => 0) (fun _ => 0) (fun _ => 0) (fun _ => 0)
        3 2).indices.length = 6 * (2 * 2) ∧
      (∀ i ∈ (createSphereGeometry (fun _ => 0) (fun _ => 0) (fun _ => 0) (fun _ => 0)
        3 2).indices, i < (2 + 1) * (2 + 1)) ∧
      (createSphereGeometry (fun _ => 0) (fun _ => 0) (fun _ => 0) (fun _ => 0)
          3 2).positions =
        (createSphereGeometry (fun _ => 0) (fun _ => 0) (fun _ => 0) (fun _ => 0)
          3 2).normals.map (fun v => (3:ℚ) * v)) :=
  ⟨by omega,
    createSphereGeometry_spec (fun _ => 0) (fun _ => 0) (fun _ => 0) (fun _ => 0)
      3 2 (by omega)⟩

/-! ## Ribbon mesh generator — `src/components/viewer/utils/shaders.ts`

`createRibbonGeometry` sweeps a cross-section along a Catmull-Rom spline.
`Math.sqrt`, `Math.cos`, `Math.sin` and `Math.PI` are taken as parameters
(`jsqrt`, `jcos`, `jsin`, `jPI`); every theorem holds for an arbitrary
interpretation of them.  Indices are kept as integers, exactly the values the
source computes before the final `Uint16Array` conversion (which can only
shrink a value, preserving the `< positions.length / 3` bound). -/

/-- Secondary-structure class from the parser/`shaders.ts`. -/
inductive SecondaryStructure where
  | helix : SecondaryStructure
  | sheet : SecondaryStructure
  | coil : SecondaryStructure
deriving DecidableEq, Repr

/-- `interface BackboneAtom` from `shaders.ts`. -/
structure BackboneAtom where
  position : Vec3
  residueIndex : ℚ
  secondaryStructure : SecondaryStructure
deriving Repr

instance : Inhabited BackboneAtom := ⟨⟨⟨0, 0, 0⟩, 0, SecondaryStructure.coil⟩⟩

/-- `normalize` from `shaders.ts` (parametrized by the `Math.sqrt` model). -/
def normalizeV (jsqrt : ℚ → ℚ) (v : Vec3) : Vec3 :=
  let length := jsqrt (v.x * v.x + v.y * v.y + v.z * v.z)
  if length = 0 then ⟨0, 0, 0⟩ else ⟨v.x / length, v.y / length, v.z / length⟩

/-- `cross` from `shaders.ts`. -/
def cross (a b : Vec3) : Vec3 :=
  ⟨a.y * b.z - a.z * b.y, a.z * b.x - a.x * b.z, a.x * b.y - a.y * b.x⟩

/-- `catmullRomSpline` from `shaders.ts`. -/
def catmullRomSpline (p0 p1 p2 p3 : Vec3) (t : ℚ) : Vec3 :=
  let t2 := t * t
  let t3 := t2 * t
  let v0 := Vec3.smul (-(1/2) * t3 + t2 - (1/2) * t) p0
  let v1 := Vec3.smul ((3/2) * t3 - (5/2) * t2 + 1) p1
  let v2 := Vec3.smul (-(3/2) * t3 + 2 * t2 + (1/2) * t) p2
  let v3 := Vec3.smul ((1/2) * t3 - (1/2) * t2) p3
  (v0.add v1).add (v2.add v3)

/-- `params[...].segments` from `createRibbonGeometry`. -/
def segsOf : SecondaryStructure → ℕ
  | SecondaryStructure.helix => 12
  | SecondaryStructure.sheet => 4
  | SecondaryStructure.coil => 6

/-- `params[...].width`. -/
def widthOf : SecondaryStructure → ℚ
  | SecondaryStructure.helix => 18/10
  | SecondaryStructure.sheet => 25/10
  | SecondaryStructure.coil => 6/10

/-- `params[...].thickness`. -/
def thicknessOf : SecondaryStructure → ℚ
  | SecondaryStructure.helix => 3/10
  | SecondaryStructure.sheet => 2/10
  | SecondaryStructure.coil => 2/10

/-- The three floats a `positions.push(...v)` spread appends. -/
def vec3List (v : Vec3) : List ℚ := [v.x, v.y, v.z]

/-- The tube cross-section of `createRibbonGeometry` (8 radial vertices, the
`else` branch of the position push; `r` does not depend on the radial index
and is hoisted out of the loop). -/
def tubeCrossSection (jcos jsin : ℚ → ℚ) (jPI : ℚ) (pos2 right2 normal2 : Vec3)
    (r : ℚ) : List ℚ :=
  (List.range 8).flatMap fun k =>
    let angle := ((k : ℚ) / 8) * jPI * 2
    vec3List (pos2.add
      ⟨right2.x * r * jcos angle + normal2.x * r * jsin angle,
       right2.y * r * jcos angle + normal2.y * r * jsin angle,
       right2.z * r * jcos angle + normal2.z * r * jsin angle⟩)

lemma tubeCrossSection_length (jcos jsin : ℚ → ℚ) (jPI : ℚ)
    (pos2 right2 normal2 : Vec3) (r : ℚ) :
    (tubeCrossSection jcos jsin jPI pos2 right2 normal2 r).length = 24 := by
  unfold tubeCrossSection
  have h := length_flatMap_const (List.range 8)
    (fun k : ℕ =>
      let angle := ((k : ℚ) / 8) * jPI * 2
      vec3List (pos2.add
        ⟨right2.x * r * jcos angle + normal2.x * r * jsin angle,
         right2.y * r * jcos angle + normal2.y * r * jsin angle,
         right2.z * r * jcos angle + normal2.z * r * jsin angle⟩))
    3 (fun k _ => rfl)
  rw [h, List.length_range]

/-- `vertexCount` repetitions of a per-vertex record (used for the normal and
color pushes, which repeat the same 3 floats for every cross-section
vertex). -/
def repList (n : ℕ) (l : List ℚ) : List ℚ := (List.range n).flatMap fun _ => l

lemma repList_length (n : ℕ) (l : List ℚ) : (repList n l).length = n * l.length := by
  unfold repList
  rw [length_flatMap_const _ _ l.length (fun _ _ => rfl), List.length_range]

/-- The triangle indices connecting two consecutive tube cross-sections
(`vertexCount` radial quads, two triangles each). -/
def tubeIndices (baseIndex : ℤ) (vertexCount : ℕ) : List ℤ :=
  (List.range vertexCount).flatMap fun k =>
    let next := (k + 1) % vertexCount
    [baseIndex - (vertexCount : ℤ) + (k : ℤ),
     baseIndex - (vertexCount : ℤ) + (next : ℤ),
     baseIndex + (k : ℤ),
     baseIndex - (vertexCount : ℤ) + (next : ℤ),
     baseIndex + (next : ℤ),
     baseIndex + (k : ℤ)]

lemma tubeIndices_mem (b : ℤ) (vc : ℕ) (hvc : 0 < vc) (idx : ℤ)
    (h : idx ∈ tubeIndices b vc) : b - (vc : ℤ) ≤ idx ∧ idx < b + (vc : ℤ) := by
  unfold tubeIndices at h
  simp only [List.mem_flatMap, List.mem_range] at h
  obtain ⟨k, hk, hmem⟩ := h
  have hnext : (k + 1) % vc < vc := Nat.mod_lt _ hvc
  simp only [List.mem_cons, List.not_mem_nil, or_false] at hmem
  rcases hmem with h | h | h | h | h | h <;> subst h <;> omega

/-- Accumulator for `createRibbonGeometry`'s `positions` / `normals` /
`indices` / `colors` arrays. -/
structure RibbonState where
  positions : List ℚ
  normals : List ℚ
  indices : List ℤ
  colors : List ℚ
deriving Repr

/-- Body of the inner `for (let j = 0; j < segments; j++)` loop of
`createRibbonGeometry`, for the outer index `i` of the padded control list. -/
def ribbonInner (jsqrt jcos jsin : ℚ → ℚ) (jPI : ℚ) (padded : List BackboneAtom)
    (i : ℕ) (st : RibbonState) (j : ℕ) : RibbonState :=
  let curr := padded.getD i default
  let ss := curr.secondaryStructure
  let p0 := (padded.getD (i - 1) default).position
  let p1 := curr.position
  let p2 := (padded.getD (i + 1) default).position
  let p3 := (padded.getD (i + 2) default).position
  let segments := segsOf ss
  let t : ℚ := (j : ℚ) / (segments : ℚ)
  let nextT : ℚ := ((j : ℚ) + 1) / (segments : ℚ)
  let pos := catmullRomSpline p0 p1 p2 p3 t
  let nextPos := catmullRomSpline p0 p1 p2 p3 nextT
  let tangent := normalizeV jsqrt (nextPos.sub pos)
  let up : Vec3 := ⟨0, 1, 0⟩
  let right := normalizeV jsqrt (cross tangent up)
  let normal := normalizeV jsqrt (cross right tangent)
  -- helix branch: twist rotation of (right, normal) and vertical rise on pos
  let twist := (t + (i : ℚ) - 1) * (jPI * 2)
  let right2 := if ss = SecondaryStructure.helix then
      (⟨right.x * jcos twist - normal.x * jsin twist,
        right.y * jcos twist - normal.y * jsin twist,
        right.z * jcos twist - normal.z * jsin twist⟩ : Vec3)
    else right
  let normal2 := if ss = SecondaryStructure.helix then
      (⟨right.x * jsin twist + normal.x * jcos twist,
        right.y * jsin twist + normal.y * jcos twist,
        right.z * jsin twist + normal.z * jcos twist⟩ : Vec3)
    else normal
  let pos2 := if ss = SecondaryStructure.helix then
      (⟨pos.x, pos.y + (t + (i : ℚ) - 1) * (15/10), pos.z⟩ : Vec3)
    else pos
  let width := if ss = SecondaryStructure.sheet then
      (25/10) * (1 + ((i : ℚ) / (padded.length : ℚ)) * (5/10))
    else widthOf ss
  let thickness := thicknessOf ss
  let baseIndex : ℤ := (st.positions.length : ℤ) / 3
  let newPositions : List ℚ :=
    if ss = SecondaryStructure.sheet then
      vec3List (pos2.add (Vec3.smul (width / 2) right2)) ++
      vec3List (pos2.add (Vec3.smul thickness normal2)) ++
      vec3List (pos2.sub (Vec3.smul (width / 2) right2)) ++
      vec3List (pos2.sub (Vec3.smul thickness normal2))
    else
      tubeCrossSection jcos jsin jPI pos2 right2 normal2
        (if ss = SecondaryStructure.helix then (18/10) / 2 else (6/10) / 2)
  let vertexCount : ℕ := if ss = SecondaryStructure.sheet then 4 else 8
  let newNormals : List ℚ := repList vertexCount (vec3List normal2)
  let newIndices : List ℤ :=
    if 0 < j then
      if ss = SecondaryStructure.sheet then
        [baseIndex - 4, baseIndex - 3, baseIndex,
         baseIndex - 3, baseIndex + 1, baseIndex,
         baseIndex - 2, baseIndex - 1, baseIndex + 2,
         baseIndex - 1, baseIndex + 3, baseIndex + 2]
      else
        tubeIndices baseIndex vertexCount
    else []
  let color : List ℚ :=
    if ss = SecondaryStructure.helix then [8/10, 3/10, 3/10]
    else if ss = SecondaryStructure.sheet then [3/10, 5/10, 8/10]
    else [8/10, 8/10, 8/10]
  let newColors : List ℚ := repList vertexCount color
  { positions := st.positions ++ newPositions
    normals := st.normals ++ newNormals
    indices := st.indices ++ newIndices
    colors := st.colors ++ newColors }

/-- One iteration of the outer `for (let i = 1; i < padded.length - 2; i++)`
loop: the inner loop over `j < segments` for this residue. -/
def ribbonSegment (jsqrt jcos jsin : ℚ → ℚ) (jPI : ℚ) (padded : List BackboneAtom)
    (st : RibbonState) (i : ℕ) : RibbonState :=
  (List.range (segsOf (padded.getD i default).secondaryStructure)).foldl
    (ribbonInner jsqrt jcos jsin jPI padded i) st

/-- `createRibbonGeometry` from `shaders.ts`. -/
def createRibbonGeometry (jsqrt jcos jsin : ℚ → ℚ) (jPI : ℚ)
    (backboneAtoms : List BackboneAtom) : RibbonState :=
  if backboneAtoms.length < 4 then
    { positions := [], normals := [], indices := [], colors := [] }
  else
    let padded := backboneAtoms.getD 0 default :: backboneAtoms ++
      [backboneAtoms.getD (backboneAtoms.length - 1) default]
    ((List.range (backboneAtoms.length - 1)).map (· + 1)).foldl
      (ribbonSegment jsqrt jcos jsin jPI padded)
      { positions := [], normals := [], indices := [], colors := [] }

/-- Invariant tying the four ribbon arrays together: `normals` and `colors`
run parallel to `positions` (same float count), `positions` holds whole
3-float vertices, and every pushed index denotes an existing vertex. -/
def RibbonInv (st : RibbonState) : Prop :=
  st.normals.length = st.positions.length ∧
  st.colors.length = st.positions.length ∧
  st.positions.length % 3 = 0 ∧
  ∀ idx ∈ st.indices, 0 ≤ idx ∧ 3 * idx < (st.positions.length : ℤ)

/-- Cross-section vertex count for the outer index `i` (4 for sheet, 8 for
the tube cases). -/
def vcOf (padded : List BackboneAtom) (i : ℕ) : ℕ :=
  if (padded.getD i default).secondaryStructure = SecondaryStructure.sheet then 4 else 8

lemma ribbonInner_positions_length (jsqrt jcos jsin : ℚ → ℚ) (jPI : ℚ)
    (padded : List BackboneAtom) (i : ℕ) (st : RibbonState) (j : ℕ) :
    (ribbonInner jsqrt jcos jsin jPI padded i st j).positions.length =
      st.positions.length + 3 * vcOf padded i := by
  rcases hss : (padded.getD i default).secondaryStructure <;>
    rw [List.getD_eq_getElem?_getD] at hss <;>
    simp [ribbonInner, vcOf, List.getD_eq_getElem?_getD, hss, vec3List,
      tubeCrossSection_length]

lemma ribbonInner_normals_length (jsqrt jcos jsin : ℚ → ℚ) (jPI : ℚ)
    (padded : List BackboneAtom) (i : ℕ) (st : RibbonState) (j : ℕ) :
    (ribbonInner jsqrt jcos jsin jPI padded i st j).normals.length =
      st.normals.length + 3 * vcOf padded i := by
  rcases hss : (padded.getD i default).secondaryStructure <;>
    rw [List.getD_eq_getElem?_getD] at hss <;>
    simp [ribbonInner, vcOf, List.getD_eq_getElem?_getD, hss, vec3List, repList_length]

lemma ribbonInner_colors_length (jsqrt jcos jsin : ℚ → ℚ) (jPI : ℚ)
    (padded : List BackboneAtom) (i : ℕ) (st : RibbonState) (j : ℕ) :
    (ribbonInner jsqrt jcos jsin jPI padded i st j).colors.length =
      st.colors.length + 3 * vcOf padded i := by
  rcases hss : (padded.getD i default).secondaryStructure <;>
    rw [List.getD_eq_getElem?_getD] at hss <;>
    simp [ribbonInner, vcOf, List.getD_eq_getElem?_getD, hss, repList_length]

lemma ribbonInner_indices_bound (jsqrt jcos jsin : ℚ → ℚ) (jPI : ℚ)
    (padded : List BackboneAtom) (i : ℕ) (st : RibbonState) (j : ℕ)
    (hmod : st.positions.length % 3 = 0)
    (hge : 3 * vcOf padded i * j ≤ st.positions.length) :
    ∀ idx ∈ (ribbonInner jsqrt jcos jsin jPI padded i st j).indices,
      idx ∈ st.indices ∨
        (0 ≤ idx ∧ 3 * idx < (st.positions.length : ℤ) + 3 * (vcOf padded i : ℤ)) := by
  intro idx hidx
  rcases Nat.eq_zero_or_pos j with hj | hj
  · subst hj
    left
    rcases hss : (padded.getD i default).secondaryStructure <;>
      rw [List.getD_eq_getElem?_getD] at hss <;>
      simpa [ribbonInner, hss] using hidx
  rcases hss : (padded.getD i default).secondaryStructure
  case helix | coil =>
    rw [List.getD_eq_getElem?_getD] at hss
    have hvc : vcOf padded i = 8 := by
      simp [vcOf, List.getD_eq_getElem?_getD, hss]
    rw [hvc] at hge ⊢
    have hsplit : (ribbonInner jsqrt jcos jsin jPI padded i st j).indices =
        st.indices ++ tubeIndices ((st.positions.length : ℤ) / 3) 8 := by
      simp [ribbonInner, hss, hj]
    rw [hsplit, List.mem_append] at hidx
    rcases hidx with h | h
    · exact Or.inl h
    · right
      have hb := tubeIndices_mem _ 8 (by omega) idx h
      have hlen : 24 ≤ st.positions.length := le_trans (by omega) hge
      omega
  case sheet =>
    rw [List.getD_eq_getElem?_getD] at hss
    have hvc : vcOf padded i = 4 := by
      simp [vcOf, List.getD_eq_getElem?_getD, hss]
    rw [hvc] at hge ⊢
    have hsplit : (ribbonInner jsqrt jcos jsin jPI padded i st j).indices =
        st.indices ++
          [(st.positions.length : ℤ) / 3 - 4, (st.positions.length : ℤ) / 3 - 3,
           (st.positions.length : ℤ) / 3,
           (st.positions.length : ℤ) / 3 - 3, (st.positions.length : ℤ) / 3 + 1,
           (st.positions.length : ℤ) / 3,
           (st.positions.length : ℤ) / 3 - 2, (st.positions.length : ℤ) / 3 - 1,
           (st.positions.length : ℤ) / 3 + 2,
           (st.positions.length : ℤ) / 3 - 1, (st.positions.length : ℤ) / 3 + 3,
           (st.positions.length : ℤ) / 3 + 2] := by
      simp [ribbonInner, hss, hj]
    rw [hsplit, List.mem_append] at hidx
    rcases hidx with h | h
    · exact Or.inl h
    · right
      have hlen : 12 ≤ st.positions.length := le_trans (by omega) hge
      simp only [List.mem_cons, List.not_mem_nil, or_false] at h
      rcases h with h | h | h | h | h | h | h | h | h | h | h | h <;> subst h <;> omega

lemma ribbonInner_preserves (jsqrt jcos jsin : ℚ → ℚ) (jPI : ℚ)
    (padded : List BackboneAtom) (i : ℕ) (st : RibbonState) (j : ℕ)
    (hInv : RibbonInv st) (hge : 3 * vcOf padded i * j ≤ st.positions.length) :
    RibbonInv (ribbonInner jsqrt jcos jsin jPI padded i st j) ∧
      (ribbonInner jsqrt jcos jsin jPI padded i st j).positions.length =
        st.positions.length + 3 * vcOf padded i := by
  obtain ⟨hn, hc, hmod, hidxb⟩ := hInv
  have hp := ribbonInner_positions_length jsqrt jcos jsin jPI padded i st j
  have hnn := ribbonInner_normals_length jsqrt jcos jsin jPI padded i st j
  have hcc := ribbonInner_colors_length jsqrt jcos jsin jPI padded i st j
  have hib := ribbonInner_indices_bound jsqrt jcos jsin jPI padded i st j hmod hge
  refine ⟨⟨by rw [hnn, hp, hn], by rw [hcc, hp, hc], by omega, ?_⟩, hp⟩
  intro idx hidx
  rcases hib idx hidx with h | h
  · have := hidxb idx h
    rw [hp]
    constructor
    · exact this.1
    · push_cast
      omega
  · rw [hp]
    constructor
    · exact h.1
    · push_cast
      omega

lemma ribbonInner_fold (jsqrt jcos jsin : ℚ → ℚ) (jPI : ℚ)
    (padded : List BackboneAtom) (i : ℕ) (st0 : RibbonState) (m : ℕ)
    (hInv : RibbonInv st0) :
    RibbonInv ((List.range m).foldl (ribbonInner jsqrt jcos jsin jPI padded i) st0) ∧
      ((List.range m).foldl (ribbonInner jsqrt jcos jsin jPI padded i) st0).positions.length =
        st0.positions.length + 3 * vcOf padded i * m := by
  induction m with
  | zero => exact ⟨hInv, by simp⟩
  | succ m ih =>
    obtain ⟨ih1, ih2⟩ := ih
    rw [List.range_succ, List.foldl_append, List.foldl_cons, List.foldl_nil]
    have hge : 3 * vcOf padded i * m ≤
        ((List.range m).foldl (ribbonInner jsqrt jcos jsin jPI padded i) st0).positions.length := by
      rw [ih2]
      exact Nat.le_add_left _ _
    obtain ⟨h1, h2⟩ := ribbonInner_preserves jsqrt jcos jsin jPI padded i _ m ih1 hge
    refine ⟨h1, ?_⟩
    rw [h2, ih2]
    ring

lemma ribbonSegment_preserves (jsqrt jcos jsin : ℚ → ℚ) (jPI : ℚ)
    (padded : List BackboneAtom) (st : RibbonState) (i : ℕ)
    (hInv : RibbonInv st) :
    RibbonInv (ribbonSegment jsqrt jcos jsin jPI padded st i) :=
  (ribbonInner_fold jsqrt jcos jsin jPI padded i st _ hInv).1

lemma foldl_ribbonSegment_inv (jsqrt jcos jsin : ℚ → ℚ) (jPI : ℚ)
    (padded : List BackboneAtom) (l : List ℕ) (st : RibbonState)
    (hInv : RibbonInv st) :
    RibbonInv (l.foldl (ribbonSegment jsqrt jcos jsin jPI padded) st) := by
  induction l generalizing st with
  | nil => exact hInv
  | cons i l ih =>
    exact ih _ (ribbonSegment_preserves jsqrt jcos jsin jPI padded st i hInv)

/-- Claim C8: for every backbone sequence (and any interpretation of the
numeric kernel), `createRibbonGeometry` returns parallel per-vertex arrays —
`positions`, `normals` and `colors` describe the same number of vertices —
and every index entry is a valid vertex index, non-negative and strictly
below `positions.length / 3`; for fewer than 4 backbone atoms all four
arrays are empty. -/
theorem createRibbonGeometry_spec (jsqrt jcos jsin : ℚ → ℚ) (jPI : ℚ)
    (backboneAtoms : List BackboneAtom) :
    (createRibbonGeometry jsqrt jcos jsin jPI backboneAtoms).normals.length =
      (createRibbonGeometry jsqrt jcos jsin jPI backboneAtoms).positions.length ∧
    (createRibbonGeometry jsqrt jcos jsin jPI backboneAtoms).colors.length =
      (createRibbonGeometry jsqrt jcos jsin jPI backboneAtoms).positions.length ∧
    (createRibbonGeometry jsqrt jcos jsin jPI backboneAtoms).positions.length % 3 = 0 ∧
    (∀ idx ∈ (createRibbonGeometry jsqrt jcos jsin jPI backboneAtoms).indices,
      0 ≤ idx ∧ idx <
        ((createRibbonGeometry jsqrt jcos jsin jPI backboneAtoms).positions.length : ℤ) / 3) ∧
    (backboneAtoms.length < 4 →
      (createRibbonGeometry jsqrt jcos jsin jPI backboneAtoms).positions = [] ∧
      (createRibbonGeometry jsqrt jcos jsin jPI backboneAtoms).normals = [] ∧
      (createRibbonGeometry jsqrt jcos jsin jPI backboneAtoms).indices = [] ∧
      (createRibbonGeometry jsqrt jcos jsin jPI backboneAtoms).colors = []) := by
  have hInv : RibbonInv (createRibbonGeometry jsqrt jcos jsin jPI backboneAtoms) := by
    unfold createRibbonGeometry
    by_cases h : backboneAtoms.length < 4
    · rw [if_pos h]
      exact ⟨rfl, rfl, rfl, fun idx hidx => absurd hidx (List.not_mem_nil idx)⟩
    · rw [if_neg h]
      exact foldl_ribbonSegment_inv _ _ _ _ _ _ _
        ⟨rfl, rfl, rfl, fun idx hidx => absurd hidx (List.not_mem_nil idx)⟩
  obtain ⟨hn, hc, hmod, hidx⟩ := hInv
  refine ⟨hn, hc, hmod, fun idx h => ?_, fun h4 => ?_⟩
  · have := hidx idx h
    omega
  · unfold createRibbonGeometry
    rw [if_pos h4]
    exact ⟨rfl, rfl, rfl, rfl⟩

/-- Witness-style instantiation of `createRibbonGeometry_spec`'s small-input
clause: on an empty backbone all four arrays are empty. -/
theorem createRibbonGeometry_spec_witness :
    (createRibbonGeometry id id id 0 []).positions = [] ∧
    (createRibbonGeometry id id id 0 []).normals = [] ∧
    (createRibbonGeometry id id id 0 []).indices = [] ∧
    (createRibbonGeometry id id id 0 []).colors = [] :=
  (createRibbonGeometry_spec id id id 0 []).2.2.2.2 (by decide)

/-! ## Structure parser — `src/components/viewer/utils/pdbParser.ts`

Strings are modelled as lists of characters (`JStr`).  JavaScript numbers
produced by `parseFloat`/`parseInt` are modelled by `JNum`, which represents
`NaN` and `±Infinity` explicitly; finite values are exact rationals built
with `Rat.divInt` (the IEEE-754 rounding of the decimal literal is
abstracted away).  Note that `String.prototype.slice`, `parseFloat` and
`parseInt` never throw, so the `try`/`catch` in `parsePdbLine` has no
effect and is not modelled: an unparseable field yields `NaN`. -/

/-- A JavaScript number as produced by `parseFloat`/`parseInt`. -/
inductive JNum where
  | nan : JNum
  | inf : JNum
  | ninf : JNum
  | num : ℚ → JNum
deriving DecidableEq, Repr

/-- A `[number, number, number]` position whose entries may be `NaN`. -/
structure JVec3 where
  x : JNum
  y : JNum
  z : JNum
deriving DecidableEq, Repr

/-- A JavaScript string, as a list of characters. -/
abbrev JStr := List Char

/-- ASCII whitespace recognized by `String.prototype.trim` (the Unicode
whitespace code points beyond ASCII are irrelevant for this file format). -/
def jsWhitespace (c : Char) : Bool :=
  c == ' ' || c == '\t' || c == '\n' || c == '\r' || c == '\x0b' || c == '\x0c'

/-- `String.prototype.trim`. -/
def jsTrim (s : JStr) : JStr :=
  ((s.dropWhile jsWhitespace).reverse.dropWhile jsWhitespace).reverse

/-- `String.prototype.slice(a, b)` for `0 ≤ a ≤ b` (clamped to the length). -/
def jsSlice (s : JStr) (a b : ℕ) : JStr := (s.take b).drop a

def kwATOM : JStr := "ATOM".toList

def kwHETATM : JStr := "HETATM".toList

def kwCA : JStr := "CA".toList

def kwInfinity : JStr := "Infinity".toList

/-- Longest prefix of decimal digits, and the rest. -/
def readDigits : JStr → JStr × JStr
  | [] => ([], [])
  | c :: rest =>
    if c.isDigit then
      let p := readDigits rest
      (c :: p.1, p.2)
    else ([], c :: rest)

def digitVal (c : Char) : ℕ := c.toNat - 48

def digitsToNat (ds : JStr) : ℕ := ds.foldl (fun acc c => acc * 10 + digitVal c) 0

def isHexDigit (c : Char) : Bool :=
  c.isDigit || (('a' ≤ c) && (c ≤ 'f')) || (('A' ≤ c) && (c ≤ 'F'))

def hexVal (c : Char) : ℕ :=
  if c.isDigit then c.toNat - 48
  else if ('a' ≤ c) && (c ≤ 'f') then c.toNat - 87
  else c.toNat - 55

/-- Longest prefix of hexadecimal digits, and the rest. -/
def readHexDigits : JStr → JStr × JStr
  | [] => ([], [])
  | c :: rest =>
    if isHexDigit c then
      let p := readHexDigits rest
      (c :: p.1, p.2)
    else ([], c :: rest)

def hexToNat (ds : JStr) : ℕ := ds.foldl (fun acc c => acc * 16 + hexVal c) 0

/-- Split an optional leading `+`/`-` sign. -/
def readSign : JStr → ℤ × JStr
  | '-' :: r => (-1, r)
  | '+' :: r => (1, r)
  | r => (1, r)

/-- `mant · 10^scale` as an exact rational. -/
def decScale (mant : ℤ) (scale : ℤ) : ℚ :=
  if 0 ≤ scale then Rat.divInt (mant * 10 ^ scale.toNat) 1
  else Rat.divInt mant (10 ^ (-scale).toNat)

/-- Model of the JavaScript `parseFloat` builtin: skip leading whitespace and
an optional sign, then take the longest prefix that is `Infinity` or digits
with an optional fractional part and optional exponent; `NaN` when no digit
is found.  Trailing garbage is ignored.  The value is exact. -/
def parseFloat (s : JStr) : JNum :=
  let s1 := s.dropWhile jsWhitespace
  let sg := readSign s1
  if kwInfinity.isPrefixOf sg.2 then
    if sg.1 = 1 then JNum.inf else JNum.ninf
  else
    let ip := readDigits sg.2
    let fp : JStr × JStr :=
      match ip.2 with
      | '.' :: r => readDigits r
      | r => ([], r)
    if ip.1 = [] ∧ fp.1 = [] then JNum.nan
    else
      let mant : ℤ := sg.1 * ((digitsToNat ip.1 * 10 ^ fp.1.length + digitsToNat fp.1 : ℕ) : ℤ)
      let ex : ℤ :=
        match fp.2 with
        | 'e' :: r =>
          let esg := readSign r
          let eds := readDigits esg.2
          if eds.1 = [] then 0 else esg.1 * (digitsToNat eds.1 : ℤ)
        | 'E' :: r =>
          let esg := readSign r
          let eds := readDigits esg.2
          if eds.1 = [] then 0 else esg.1 * (digitsToNat eds.1 : ℤ)
        | _ => 0
      JNum.num (decScale mant (ex - fp.1.length))

/-- Model of the JavaScript `parseInt(s)` builtin with no radix argument:
skip leading whitespace and an optional sign; a `0x`/`0X` prefix selects base
16, otherwise base 10; take the longest digit prefix; `NaN` when there is
none. -/
def parseIntJS (s : JStr) : JNum :=
  let s1 := s.dropWhile jsWhitespace
  let sg := readSign s1
  match sg.2 with
  | '0' :: 'x' :: r =>
    let ds := readHexDigits r
    if ds.1 = [] then JNum.nan else JNum.num (Rat.divInt (sg.1 * (hexToNat ds.1 : ℤ)) 1)
  | '0' :: 'X' :: r =>
    let ds := readHexDigits r
    if ds.1 = [] then JNum.nan else JNum.num (Rat.divInt (sg.1 * (hexToNat ds.1 : ℤ)) 1)
  | r =>
    let ds := readDigits r
    if ds.1 = [] then JNum.nan else JNum.num (Rat.divInt (sg.1 * (digitsToNat ds.1 : ℤ)) 1)

/-- `getAtomProperties` from `pdbParser.ts`: `[radius, color]` for an element
symbol, after upper-casing (decimal literals written as exact rationals). -/
def getAtomProperties (element : JStr) : ℚ × (ℚ × ℚ × ℚ) :=
  let e := element.map Char.toUpper
  if e = "H".toList then (Rat.divInt 31 100, (1, 1, 1))
  else if e = "C".toList then
    (Rat.divInt 77 100, (Rat.divInt 5 10, Rat.divInt 5 10, Rat.divInt 5 10))
  else if e = "N".toList then (Rat.divInt 75 100, (0, 0, 1))
  else if e = "O".toList then (Rat.divInt 73 100, (1, 0, 0))
  else if e = "P".toList then (Rat.divInt 106 100, (1, Rat.divInt 5 10, 0))
  else if e = "S".toList then (Rat.divInt 102 100, (1, 1, 0))
  else (Rat.divInt 75 100, (Rat.divInt 8 10, Rat.divInt 8 10, Rat.divInt 8 10))

/-- The parse result of one atom line (`parsePdbLine`'s return object). -/
structure PdbAtom where
  position : JVec3
  element : JStr
  residueName : JStr
  atomName : JStr
  residueNumber : JNum
  chain : JStr
deriving DecidableEq, Repr

/-- `parsePdbLine` from `pdbParser.ts`: `null` unless the trimmed line starts
with `"ATOM"`; fixed-column field extraction otherwise.  The element falls
back to columns 12–14 when columns 76–78 are blank (the JS `||`). -/
def parsePdbLine (line : JStr) : Option PdbAtom :=
  if kwATOM.isPrefixOf (jsTrim line) then
    some
      { position :=
          ⟨parseFloat (jsTrim (jsSlice line 30 38)),
           parseFloat (jsTrim (jsSlice line 38 46)),
           parseFloat (jsTrim (jsSlice line 46 54))⟩
        element :=
          if jsTrim (jsSlice line 76 78) = [] then jsTrim (jsSlice line 12 14)
          else jsTrim (jsSlice line 76 78)
        residueName := jsTrim (jsSlice line 17 20)
        atomName := jsTrim (jsSlice line 12 16)
        residueNumber := parseIntJS (jsTrim (jsSlice line 22 26))
        chain := jsTrim (jsSlice line 21 22) }
  else none

/-- `AtomInfo` from `types.ts`. -/
structure AtomInfo where
  index : ℕ
  position : JVec3
  residueName : JStr
  atomName : JStr
  residueNumber : JNum
  chain : JStr
deriving DecidableEq, Repr

/-- The 7-float record pushed per accepted atom: position(3), color(3),
radius(1). -/
def record7 (a : PdbAtom) : List JNum :=
  let rc := getAtomProperties a.element
  [a.position.x, a.position.y, a.position.z,
   JNum.num rc.2.1, JNum.num rc.2.2.1, JNum.num rc.2.2.2, JNum.num rc.1]

/-- The `AtomInfo` object built for the accepted atom at running index `i`. -/
def mkAtomInfo (i : ℕ) (a : PdbAtom) : AtomInfo :=
  { index := i, position := a.position, residueName := a.residueName,
    atomName := a.atomName, residueNumber := a.residueNumber, chain := a.chain }

/-- `Map.prototype.set` on an insertion-ordered association list (JS `Map`
semantics: an existing key keeps its position and gets the new value,
otherwise the pair is appended; key equality is SameValueZero, which our
structural `JNum` equality models — `NaN` equals `NaN`). -/
def mapSet (m : List (JNum × AtomInfo)) (k : JNum) (v : AtomInfo) :
    List (JNum × AtomInfo) :=
  match m with
  | [] => [(k, v)]
  | kv :: rest => if kv.1 = k then (k, v) :: rest else kv :: mapSet rest k v

/-- Split on `/\r?\n/` (a lone `\r` is not a separator). -/
def splitLines : JStr → List JStr
  | [] => [[]]
  | '\r' :: '\n' :: rest => [] :: splitLines rest
  | '\n' :: rest => [] :: splitLines rest
  | c :: rest =>
    match splitLines rest with
    | [] => [[c]]
    | l :: ls => (c :: l) :: ls

/-- Accumulator of the first pass of `parseAtomsWithMetadata` (`atoms`,
`atomsMetadata`, `backboneMap`, `index`). -/
structure ParseState where
  atoms : List JNum
  atomsMetadata : List AtomInfo
  backboneMap : List (JNum × AtomInfo)
  index : ℕ
deriving Repr

/-- Body of the `lines.forEach` loop of `parseAtomsWithMetadata`. -/
def processLine (st : ParseState) (line : JStr) : ParseState :=
  match parsePdbLine (jsTrim line) with
  | none => st
  | some a =>
    let atomInfo := mkAtomInfo st.index a
    { atoms := st.atoms ++ record7 a
      atomsMetadata := st.atomsMetadata ++ [atomInfo]
      backboneMap :=
        if a.atomName = kwCA then mapSet st.backboneMap a.residueNumber atomInfo
        else st.backboneMap
      index := st.index + 1 }

def commonHelixResidues : List JStr :=
  ["ALA".toList, "LEU".toList, "GLU".toList, "LYS".toList]

def commonSheetResidues : List JStr :=
  ["VAL".toList, "ILE".toList, "THR".toList]

/-- `determineSecondaryStructure` from `pdbParser.ts` (the source also looks
up `backbone.get(residueIndex ± 1)` into two locals that it never uses; the
classification depends only on the residue name). -/
def determineSecondaryStructure (residueName : JStr) (residueIndex : JNum)
    (backbone : List (JNum × AtomInfo)) : SecondaryStructure :=
  if residueName ∈ commonHelixResidues then SecondaryStructure.helix
  else if residueName ∈ commonSheetResidues then SecondaryStructure.sheet
  else SecondaryStructure.coil

/-- One entry of the parser's `backboneAtoms` array. -/
structure BackboneEntry where
  position : JVec3
  residueIndex : JNum
  secondaryStructure : SecondaryStructure
deriving DecidableEq, Repr

/-- `a.residueIndex - b.residueIndex ≤ 0 or NaN`: under the comparator
`(a, b) => a.residueIndex - b.residueIndex`, `a` stays before `b`
(ECMAScript SortCompare maps a NaN comparator result to `+0`).  For finite
keys the sign of the exact difference is the sign of the comparison. -/
def cmpKeep (a b : BackboneEntry) : Bool :=
  match a.residueIndex, b.residueIndex with
  | JNum.nan, _ => true
  | _, JNum.nan => true
  | JNum.inf, JNum.inf => true
  | JNum.inf, _ => false
  | JNum.ninf, _ => true
  | JNum.num _, JNum.inf => true
  | JNum.num _, JNum.ninf => false
  | JNum.num a, JNum.num b => decide (a ≤ b)

/-- Stable insertion respecting `cmpKeep` (equal/NaN comparisons keep the
existing order, as JS `Array.prototype.sort` is stable). -/
def jsInsert (x : BackboneEntry) : List BackboneEntry → List BackboneEntry
  | [] => [x]
  | y :: ys => if cmpKeep y x then y :: jsInsert x ys else x :: y :: ys

/-- `Array.prototype.sort` with the residue-index comparator, modelled as a
stable insertion sort; for a consistent comparator (all keys finite and
distinct, the case the ECMAScript specification pins down) this is the
unique sorted reordering. -/
def jsSort : List BackboneEntry → List BackboneEntry
  | [] => []
  | x :: xs => jsInsert x (jsSort xs)

/-- The state after the first pass of `parseAtomsWithMetadata`. -/
def finalState (content : JStr) : ParseState :=
  (splitLines content).foldl processLine ⟨[], [], [], 0⟩

/-- The backbone array built by the second pass and sorted by residue
index. -/
def backboneSeq (content : JStr) : List BackboneEntry :=
  jsSort ((finalState content).backboneMap.map fun kv =>
    { position := kv.2.position
      residueIndex := kv.1
      secondaryStructure :=
        determineSecondaryStructure kv.2.residueName kv.1
          (finalState content).backboneMap })

/-- The result object of `parseAtomsWithMetadata` (`backboneAtoms` is
`undefined` — `none` — when empty). -/
structure ParseResult where
  renderData : List JNum
  atomsMetadata : List AtomInfo
  backboneAtoms : Option (List BackboneEntry)
deriving Repr

/-- `parseAtomsWithMetadata` from `pdbParser.ts`. -/
def parseAtomsWithMetadata (content : JStr) : ParseResult :=
  { renderData := (finalState content).atoms
    atomsMetadata := (finalState content).atomsMetadata
    backboneAtoms :=
      if 0 < (backboneSeq content).length then some (backboneSeq content) else none }

/-- The accepted atom records of an input, in file order. -/
def acceptedAtoms (content : JStr) : List PdbAtom :=
  (splitLines content).filterMap fun l => parsePdbLine (jsTrim l)

/-- The `AtomInfo` objects built for a run of accepted atoms, starting at
running index `i0`. -/
def metaFrom (i0 : ℕ) : List PdbAtom → List AtomInfo
  | [] => []
  | a :: as => mkAtomInfo i0 a :: metaFrom (i0 + 1) as

/-- The backbone-map contribution of one accepted atom: `CA` atoms are
`Map.set` into the map keyed by residue number. -/
def bmapStep (m : List (JNum × AtomInfo)) (info : AtomInfo) : List (JNum × AtomInfo) :=
  if info.atomName = kwCA then mapSet m info.residueNumber info else m

lemma metaFrom_length (i0 : ℕ) (l : List PdbAtom) : (metaFrom i0 l).length = l.length := by
  induction l generalizing i0 with
  | nil => rfl
  | cons a as ih => simp [metaFrom, ih]

lemma record7_length (a : PdbAtom) : (record7 a).length = 7 := rfl

/-- Characterization of the first pass: folding `processLine` appends the
7-float records and the `AtomInfo`s of the accepted atoms, advances the
running index by their count, and folds the `CA` atoms into the backbone
map. -/
lemma foldl_processLine_spec (lines : List JStr) (s : ParseState) :
    (lines.foldl processLine s).atoms =
      s.atoms ++ (lines.filterMap fun l => parsePdbLine (jsTrim l)).flatMap record7 ∧
    (lines.foldl processLine s).atomsMetadata =
      s.atomsMetadata ++ metaFrom s.index (lines.filterMap fun l => parsePdbLine (jsTrim l)) ∧
    (lines.foldl processLine s).index =
      s.index + (lines.filterMap fun l => parsePdbLine (jsTrim l)).length ∧
    (lines.foldl processLine s).backboneMap =
      (metaFrom s.index (lines.filterMap fun l => parsePdbLine (jsTrim l))).foldl
        bmapStep s.backboneMap := by
  induction lines generalizing s with
  | nil => simp [metaFrom]
  | cons l ls ih =>
    simp only [List.foldl_cons, List.filterMap_cons]
    cases h : parsePdbLine (jsTrim l) with
    | none =>
      have hpl : processLine s l = s := by
        unfold processLine
        rw [h]
      rw [hpl]
      exact ih s
    | some a =>
      have hpl : processLine s l =
          { atoms := s.atoms ++ record7 a
            atomsMetadata := s.atomsMetadata ++ [mkAtomInfo s.index a]
            backboneMap := bmapStep s.backboneMap (mkAtomInfo s.index a)
            index := s.index + 1 } := by
        unfold processLine
        rw [h]
        rfl
      rw [hpl]
      obtain ⟨ih1, ih2, ih3, ih4⟩ := ih
        { atoms := s.atoms ++ record7 a
          atomsMetadata := s.atomsMetadata ++ [mkAtomInfo s.index a]
          backboneMap := bmapStep s.backboneMap (mkAtomInfo s.index a)
          index := s.index + 1 }
      refine ⟨?_, ?_, ?_, ?_⟩
      · rw [ih1]
        simp [List.append_assoc]
      · rw [ih2]
        simp [metaFrom, List.append_assoc]
      · rw [ih3]
        simp
        omega
      · rw [ih4]
        simp [metaFrom]

lemma flatMap_record7_segment (acc : List PdbAtom) (i : ℕ) (hi : i < acc.length) :
    ((acc.flatMap record7).drop (7 * i)).take 7 = record7 (acc.get ⟨i, hi⟩) := by
  induction acc generalizing i with
  | nil => exact absurd hi (Nat.not_lt_zero i)
  | cons a as ih =>
    cases i with
    | zero =>
      simp only [Nat.mul_zero, List.drop_zero, List.flatMap_cons]
      rw [List.take_left' (record7_length a)]
      rfl
    | succ i =>
      have h7 : 7 * (i + 1) = 7 + 7 * i := by ring
      simp only [List.flatMap_cons, h7]
      rw [← List.drop_drop, List.drop_left' (record7_length a)]
      exact ih i (Nat.lt_of_succ_lt_succ hi)

lemma metaFrom_getElem (i0 : ℕ) (acc : List PdbAtom) (i : ℕ) (hi : i < acc.length) :
    (metaFrom i0 acc)[i]? = some (mkAtomInfo (i0 + i) (acc.get ⟨i, hi⟩)) := by
  induction acc generalizing i0 i with
  | nil => exact absurd hi (Nat.not_lt_zero i)
  | cons a as ih =>
    cases i with
    | zero => simp [metaFrom]
    | succ i =>
      have := ih (i0 + 1) i (Nat.lt_of_succ_lt_succ hi)
      simp only [metaFrom, List.getElem?_cons_succ]
      rw [this]
      congr 2
      omega

/-- Claim C1: for every input text, the render buffer has length exactly
`7 ·` (number of accepted atom records); the metadata list runs parallel to
the accepted records; and for every `i`, the 7-float segment
`[7i, 7i+7)` is the record of the `i`-th accepted atom — its position, then
its element-derived color, then its element-derived radius (`record7`) — and
`atomsMetadata[i]` is the `AtomInfo` of the same atom with `index = i`. -/
theorem parseAtoms_renderBuffer_spec (content : JStr) :
    (parseAtomsWithMetadata content).renderData.length =
      7 * (parseAtomsWithMetadata content).atomsMetadata.length ∧
    (parseAtomsWithMetadata content).atomsMetadata.length = (acceptedAtoms content).length ∧
    ∀ i (hi : i < (acceptedAtoms content).length),
      ((parseAtomsWithMetadata content).renderData.drop (7 * i)).take 7 =
        record7 ((acceptedAtoms content).get ⟨i, hi⟩) ∧
      (parseAtomsWithMetadata content).atomsMetadata[i]? =
        some (mkAtomInfo i ((acceptedAtoms content).get ⟨i, hi⟩)) := by
  obtain ⟨h1, h2, h3, h4⟩ := foldl_processLine_spec (splitLines content) ⟨[], [], [], 0⟩
  have hrd : (parseAtomsWithMetadata content).renderData =
      (acceptedAtoms content).flatMap record7 := by
    show (finalState content).atoms = _
    unfold finalState acceptedAtoms
    rw [h1]
    rfl
  have hmeta : (parseAtomsWithMetadata content).atomsMetadata =
      metaFrom 0 (acceptedAtoms content) := by
    show (finalState content).atomsMetadata = _
    unfold finalState acceptedAtoms
    rw [h2]
    rfl
  have hmlen : (parseAtomsWithMetadata content).atomsMetadata.length =
      (acceptedAtoms content).length := by
    rw [hmeta, metaFrom_length]
  refine ⟨?_, hmlen, fun i hi => ⟨?_, ?_⟩⟩
  · rw [hrd, hmlen]
    have := length_flatMap_const (acceptedAtoms content) record7 7 (fun a _ => record7_length a)
    rw [this]
    ring
  · rw [hrd]
    exact flatMap_record7_segment _ i hi
  · rw [hmeta]
    have := metaFrom_getElem 0 (acceptedAtoms content) i hi
    simpa using this

/-- A well-formed single-atom input used as a concrete instantiation. -/
def exLine1 : JStr :=
  "ATOM      1 CA   ALA A   2       1.000   2.000   3.000  1.00  0.00           C".toList

theorem parseAtoms_renderBuffer_spec_witness :
    (parseAtomsWithMetadata exLine1).renderData.length =
      7 * (parseAtomsWithMetadata exLine1).atomsMetadata.length ∧
    ((parseAtomsWithMetadata exLine1).renderData.drop (7 * 0)).take 7 =
      record7 ((acceptedAtoms exLine1).get ⟨0, by decide⟩) ∧
    (parseAtomsWithMetadata exLine1).atomsMetadata[0]? =
      some (mkAtomInfo 0 ((acceptedAtoms exLine1).get ⟨0, by decide⟩)) := by
  have h := parseAtoms_renderBuffer_spec exLine1
  exact ⟨h.1, (h.2.2 0 (by decide)).1, (h.2.2 0 (by decide)).2⟩

/-- An atom line whose x-coordinate column slice (`30–38`) is not parseable
as a number. -/
def exLineBadX : JStr :=
  "ATOM      1 N    ALA A   3      xxxxxx   8.000   9.000  1.00  0.00           N".toList

/-- Claim C2 (divergence evidence): the spec says a line whose coordinate
column slice is not parseable is skipped, and the `try`/`catch` of
`parsePdbLine` was clearly written to that end — but `slice`/`parseFloat`
never throw in JavaScript, so the catch is dead code: the malformed line is
accepted, contributing a full 7-float record and a metadata entry whose
x-coordinate is `NaN`. -/
theorem malformed_coordinate_line_not_skipped :
    (acceptedAtoms exLineBadX).length = 1 ∧
    (acceptedAtoms exLineBadX).map (fun a => a.position.x) = [JNum.nan] ∧
    (parseAtomsWithMetadata exLineBadX).atomsMetadata.length = 1 ∧
    (parseAtomsWithMetadata exLineBadX).renderData.length = 7 := by
  refine ⟨by decide, by decide, by decide, by decide⟩

/-- A well-formed heteroatom record line. -/
def exLineHet : JStr :=
  "HETATM    1 O    HOH A   5       1.000   2.000   3.000  1.00  0.00           O".toList

/-- Claim C3, counterexample: a well-formed `HETATM` line is rejected by the
structure parser — `parsePdbLine` returns `null` for it, and
`parseAtomsWithMetadata` yields no record at all — contradicting the claim
that heteroatom records are accepted. -/
theorem hetatm_line_yields_no_record :
    kwHETATM.isPrefixOf (jsTrim exLineHet) = true ∧
    parsePdbLine (jsTrim exLineHet) = none ∧
    (parseAtomsWithMetadata exLineHet).atomsMetadata.length = 0 ∧
    (parseAtomsWithMetadata exLineHet).renderData = [] := by
  refine ⟨by decide, by decide, by decide, by decide⟩

/-- Claim C3, amended: the structure parser used by the viewer
(`parsePdbLine`, called by `parseAtomsWithMetadata`) accepts only lines whose
trimmed text starts with `"ATOM"`; every line beginning with the heteroatom
keyword `"HETATM"` is rejected and yields no entry.  (Only the superseded
inline parser of the old `FileUpload` revision also accepted `HETATM`.) -/
theorem hetatm_rejected_by_parsePdbLine (line : JStr)
    (h : kwHETATM.isPrefixOf (jsTrim line) = true) :
    parsePdbLine line = none := by
  unfold parsePdbLine
  rw [if_neg]
  obtain ⟨rest, hrest⟩ := List.isPrefixOf_iff_prefix.mp h
  intro hA
  rw [← hrest] at hA
  simp [kwATOM, kwHETATM, List.isPrefixOf] at hA

theorem hetatm_rejected_by_parsePdbLine_witness :
    kwHETATM.isPrefixOf (jsTrim exLineHet) = true ∧ parsePdbLine exLineHet = none :=
  ⟨by decide, hetatm_rejected_by_parsePdbLine exLineHet (by decide)⟩

/-! ### Backbone order (C5): map characterization and sorting -/

/-- `true` on a finite number (not `NaN`, not `±Infinity`). -/
def JNum.isNum : JNum → Bool
  | JNum.num _ => true
  | _ => false

/-- The JavaScript `<` on numbers: `false` whenever either side is `NaN`. -/
def jnumLt : JNum → JNum → Bool
  | JNum.nan, _ => false
  | _, JNum.nan => false
  | JNum.ninf, JNum.ninf => false
  | JNum.ninf, _ => true
  | JNum.inf, _ => false
  | JNum.num _, JNum.ninf => false
  | JNum.num _, JNum.inf => true
  | JNum.num a, JNum.num b => decide (a < b)

/-- The JavaScript `<=` on numbers: `false` whenever either side is `NaN`. -/
def jnumLe : JNum → JNum → Bool
  | JNum.nan, _ => false
  | _, JNum.nan => false
  | JNum.ninf, _ => true
  | JNum.inf, JNum.inf => true
  | JNum.inf, _ => false
  | JNum.num _, JNum.ninf => false
  | JNum.num _, JNum.inf => true
  | JNum.num a, JNum.num b => decide (a ≤ b)

/-- `Map.prototype.get`: value of the first (and, with unique keys, only)
entry with the given key. -/
def mapGet : List (JNum × AtomInfo) → JNum → Option AtomInfo
  | [], _ => none
  | kv :: rest, k => if kv.1 = k then some kv.2 else mapGet rest k

lemma mapGet_mapSet (m : List (JNum × AtomInfo)) (k k' : JNum) (v : AtomInfo) :
    mapGet (mapSet m k v) k' = if k = k' then some v else mapGet m k' := by
  induction m with
  | nil =>
    simp only [mapSet, mapGet]
  | cons kv rest ih =>
    simp only [mapSet]
    by_cases h1 : kv.1 = k
    · rw [if_pos h1]
      by_cases h2 : k = k'
      · simp only [mapGet]
        rw [if_pos h2, if_pos h2]
      · simp only [mapGet]
        rw [if_neg h2, if_neg h2, if_neg (by rw [h1]; exact h2)]
    · rw [if_neg h1]
      simp only [mapGet]
      by_cases h2 : kv.1 = k'
      · rw [if_pos h2, if_pos h2, if_neg (by rw [← h2]; exact fun hh => h1 hh.symm)]
      · rw [if_neg h2, if_neg h2, ih]

lemma mem_mapSet (m : List (JNum × AtomInfo)) (k : JNum) (v : AtomInfo) :
    ∀ p ∈ mapSet m k v, p = (k, v) ∨ p ∈ m := by
  induction m with
  | nil =>
    intro p hp
    simp only [mapSet, List.mem_singleton] at hp
    exact Or.inl hp
  | cons kv rest ih =>
    intro p hp
    simp only [mapSet] at hp
    by_cases h1 : kv.1 = k
    · rw [if_pos h1] at hp
      rcases List.mem_cons.mp hp with h | h
      · exact Or.inl h
      · exact Or.inr (List.mem_cons_of_mem _ h)
    · rw [if_neg h1] at hp
      rcases List.mem_cons.mp hp with h | h
      · exact Or.inr (h ▸ List.mem_cons_self _ _)
      · rcases ih p h with h' | h'
        · exact Or.inl h'
        · exact Or.inr (List.mem_cons_of_mem _ h')

lemma mapSet_pairwise (m : List (JNum × AtomInfo)) (k : JNum) (v : AtomInfo)
    (h : m.Pairwise (fun p q => p.1 ≠ q.1)) :
    (mapSet m k v).Pairwise (fun p q => p.1 ≠ q.1) := by
  induction m with
  | nil => simp [mapSet]
  | cons kv rest ih =>
    rw [List.pairwise_cons] at h
    simp only [mapSet]
    by_cases h1 : kv.1 = k
    · rw [if_pos h1]
      rw [List.pairwise_cons]
      exact ⟨fun q hq => h1 ▸ h.1 q hq, h.2⟩
    · rw [if_neg h1]
      rw [List.pairwise_cons]
      refine ⟨fun q hq => ?_, ih h.2⟩
      rcases mem_mapSet rest k v q hq with h' | h'
      · rw [h']
        exact h1
      · exact h.1 q h'

lemma mapGet_of_mem (m : List (JNum × AtomInfo)) (k : JNum) (v : AtomInfo)
    (hnd : m.Pairwise (fun p q => p.1 ≠ q.1)) (hmem : (k, v) ∈ m) :
    mapGet m k = some v := by
  induction m with
  | nil => exact absurd hmem (List.not_mem_nil _)
  | cons kv rest ih =>
    rw [List.pairwise_cons] at hnd
    rcases List.mem_cons.mp hmem with h | h
    · rw [← h]
      simp [mapGet]
    · have hne : kv.1 ≠ k := hnd.1 (k, v) h
      simp only [mapGet]
      rw [if_neg hne]
      exact ih hnd.2 h

/-- The last accepted `CA` atom (as its `AtomInfo`) whose residue number is
SameValueZero-equal to `k`. -/
def lastCA : List AtomInfo → JNum → Option AtomInfo
  | [], _ => none
  | info :: rest, k =>
    match lastCA rest k with
    | some v => some v
    | none =>
      if info.atomName = kwCA ∧ info.residueNumber = k then some info else none

/-- Folding the `CA` atoms into the map realizes last-wins lookup. -/
lemma mapGet_foldl_bmapStep (infos : List AtomInfo) (m : List (JNum × AtomInfo))
    (k : JNum) :
    mapGet (infos.foldl bmapStep m) k =
      match lastCA infos k with
      | some v => some v
      | none => mapGet m k := by
  induction infos generalizing m with
  | nil => rfl
  | cons info rest ih =>
    simp only [List.foldl_cons, lastCA]
    rw [ih]
    cases hl : lastCA rest k with
    | some v => rfl
    | none =>
      simp only
      by_cases hca : info.atomName = kwCA
      · by_cases hrn : info.residueNumber = k
        · rw [if_pos ⟨hca, hrn⟩]
          unfold bmapStep
          rw [if_pos hca, mapGet_mapSet, if_pos hrn]
        · rw [if_neg (fun hh => hrn hh.2)]
          unfold bmapStep
          rw [if_pos hca, mapGet_mapSet, if_neg hrn]
      · rw [if_neg (fun hh => hca hh.1)]
        unfold bmapStep
        rw [if_neg hca]

lemma foldl_bmapStep_pairwise (infos : List AtomInfo) (m : List (JNum × AtomInfo))
    (hm : m.Pairwise (fun p q => p.1 ≠ q.1)) :
    (infos.foldl bmapStep m).Pairwise (fun p q => p.1 ≠ q.1) := by
  induction infos generalizing m with
  | nil => exact hm
  | cons info rest ih =>
    simp only [List.foldl_cons]
    refine ih _ ?_
    unfold bmapStep
    by_cases hca : info.atomName = kwCA
    · rw [if_pos hca]
      exact mapSet_pairwise m _ _ hm
    · rw [if_neg hca]
      exact hm

lemma foldl_bmapStep_keys_isNum (infos : List AtomInfo) (m : List (JNum × AtomInfo))
    (hm : ∀ p ∈ m, JNum.isNum p.1 = true)
    (hinfos : ∀ info ∈ infos, info.atomName = kwCA → JNum.isNum info.residueNumber = true) :
    ∀ p ∈ infos.foldl bmapStep m, JNum.isNum p.1 = true := by
  induction infos generalizing m with
  | nil => exact hm
  | cons info rest ih =>
    simp only [List.foldl_cons]
    refine ih _ ?_ (fun i hi => hinfos i (List.mem_cons_of_mem _ hi))
    intro p hp
    unfold bmapStep at hp
    by_cases hca : info.atomName = kwCA
    · rw [if_pos hca] at hp
      rcases mem_mapSet m _ _ p hp with h | h
      · rw [h]
        exact hinfos info (List.mem_cons_self _ _) hca
      · exact hm p h
    · rw [if_neg hca] at hp
      exact hm p hp

lemma metaFrom_pred (P : JStr → JNum → Prop) (i0 : ℕ) (acc : List PdbAtom)
    (h : ∀ a ∈ acc, P a.atomName a.residueNumber) :
    ∀ info ∈ metaFrom i0 acc, P info.atomName info.residueNumber := by
  induction acc generalizing i0 with
  | nil => intro info hinfo; exact absurd hinfo (List.not_mem_nil _)
  | cons a as ih =>
    intro info hinfo
    rcases List.mem_cons.mp hinfo with h' | h'
    · rw [h']
      exact h a (List.mem_cons_self _ _)
    · exact ih (i0 + 1) (fun b hb => h b (List.mem_cons_of_mem _ hb)) info h'

lemma jsInsert_perm (x : BackboneEntry) (l : List BackboneEntry) :
    (jsInsert x l).Perm (x :: l) := by
  induction l with
  | nil => exact List.Perm.refl _
  | cons y ys ih =>
    simp only [jsInsert]
    by_cases h : cmpKeep y x = true
    · rw [if_pos h]
      exact (ih.cons y).trans (List.Perm.swap x y ys)
    · rw [if_neg h]

lemma jsSort_perm (l : List BackboneEntry) : (jsSort l).Perm l := by
  induction l with
  | nil => exact List.Perm.refl _
  | cons x xs ih =>
    exact (jsInsert_perm x (jsSort xs)).trans (ih.cons x)

lemma cmpKeep_total (a b : BackboneEntry)
    (ha : JNum.isNum a.residueIndex = true) (hb : JNum.isNum b.residueIndex = true)
    (h : ¬ cmpKeep a b = true) : cmpKeep b a = true := by
  cases hka : a.residueIndex with
  | num qa =>
    cases hkb : b.residueIndex with
    | num qb =>
      unfold cmpKeep at h ⊢
      rw [hka, hkb] at h
      rw [hkb, hka]
      simp only [decide_eq_true_eq] at h ⊢
      linarith [not_le.mp h]
    | nan => rw [hkb] at hb; exact absurd hb (by simp [JNum.isNum])
    | inf => rw [hkb] at hb; exact absurd hb (by simp [JNum.isNum])
    | ninf => rw [hkb] at hb; exact absurd hb (by simp [JNum.isNum])
  | nan => rw [hka] at ha; exact absurd ha (by simp [JNum.isNum])
  | inf => rw [hka] at ha; exact absurd ha (by simp [JNum.isNum])
  | ninf => rw [hka] at ha; exact absurd ha (by simp [JNum.isNum])

lemma jsInsert_head_mem (x : BackboneEntry) (l : List BackboneEntry) :
    ∀ z ∈ (jsInsert x l).head?, z = x ∨ z ∈ l.head? := by
  cases l with
  | nil =>
    intro z hz
    simp only [jsInsert, List.head?] at hz
    exact Or.inl (Option.some.inj hz).symm
  | cons y ys =>
    intro z hz
    simp only [jsInsert] at hz
    by_cases h : cmpKeep y x = true
    · rw [if_pos h] at hz
      simp only [List.head?] at hz
      exact Or.inr (by simpa [List.head?] using hz)
    · rw [if_neg h] at hz
      simp only [List.head?] at hz
      exact Or.inl (Option.some.inj hz).symm

lemma chain'_cmpKeep_insert (x : BackboneEntry) (l : List BackboneEntry)
    (hl : List.Chain' (fun a b => cmpKeep a b = true) l)
    (hx : JNum.isNum x.residueIndex = true)
    (hall : ∀ e ∈ l, JNum.isNum e.residueIndex = true) :
    List.Chain' (fun a b => cmpKeep a b = true) (jsInsert x l) := by
  induction l with
  | nil => simp [jsInsert]
  | cons y ys ih =>
    simp only [jsInsert]
    by_cases h : cmpKeep y x = true
    · rw [if_pos h]
      rw [List.chain'_cons']
      refine ⟨fun z hz => ?_, ?_⟩
      · rcases jsInsert_head_mem x ys z hz with hzx | hzy
        · rw [hzx]
          exact h
        · exact (List.chain'_cons'.mp hl).1 z hzy
      · exact ih (List.chain'_cons'.mp hl).2
          (fun e he => hall e (List.mem_cons_of_mem _ he))
    · rw [if_neg h]
      rw [List.chain'_cons]
      exact ⟨cmpKeep_total y x (hall y (List.mem_cons_self _ _)) hx h, hl⟩

lemma chain'_cmpKeep_sort (l : List BackboneEntry)
    (hall : ∀ e ∈ l, JNum.isNum e.residueIndex = true) :
    List.Chain' (fun a b => cmpKeep a b = true) (jsSort l) := by
  induction l with
  | nil => simp [jsSort]
  | cons x xs ih =>
    have htail : ∀ e ∈ jsSort xs, JNum.isNum e.residueIndex = true := fun e he =>
      hall e (List.mem_cons_of_mem _ ((jsSort_perm xs).mem_iff.mp he))
    exact chain'_cmpKeep_insert x (jsSort xs)
      (ih (fun e he => hall e (List.mem_cons_of_mem _ he)))
      (hall x (List.mem_cons_self _ _)) htail

lemma jnumLt_of_cmpKeep_ne (a b : BackboneEntry)
    (ha : JNum.isNum a.residueIndex = true) (hb : JNum.isNum b.residueIndex = true)
    (hc : cmpKeep a b = true) (hne : a.residueIndex ≠ b.residueIndex) :
    jnumLt a.residueIndex b.residueIndex = true := by
  cases hka : a.residueIndex with
  | num qa =>
    cases hkb : b.residueIndex with
    | num qb =>
      unfold cmpKeep at hc
      rw [hka, hkb] at hc
      rw [hka, hkb] at hne
      unfold jnumLt
      simp only [decide_eq_true_eq] at hc ⊢
      exact lt_of_le_of_ne hc (fun hh => hne (by rw [hh]))
    | nan => rw [hkb] at hb; exact absurd hb (by simp [JNum.isNum])
    | inf => rw [hkb] at hb; exact absurd hb (by simp [JNum.isNum])
    | ninf => rw [hkb] at hb; exact absurd hb (by simp [JNum.isNum])
  | nan => rw [hka] at ha; exact absurd ha (by simp [JNum.isNum])
  | inf => rw [hka] at ha; exact absurd ha (by simp [JNum.isNum])
  | ninf => rw [hka] at ha; exact absurd ha (by simp [JNum.isNum])

lemma chain'_jnumLt_of_cmpKeep (l : List BackboneEntry)
    (hc : List.Chain' (fun a b => cmpKeep a b = true) l)
    (hp : l.Pairwise (fun a b => a.residueIndex ≠ b.residueIndex))
    (hn : ∀ e ∈ l, JNum.isNum e.residueIndex = true) :
    List.Chain' (fun a b => jnumLt a.residueIndex b.residueIndex = true) l := by
  induction l with
  | nil => exact List.chain'_nil
  | cons a l ih =>
    cases l with
    | nil => exact List.chain'_singleton a
    | cons b l' =>
      rw [List.chain'_cons] at hc ⊢
      rw [List.pairwise_cons] at hp
      refine ⟨jnumLt_of_cmpKeep_ne a b (hn a (List.mem_cons_self _ _))
        (hn b (List.mem_cons_of_mem _ (List.mem_cons_self _ _))) hc.1
        (hp.1 b (List.mem_cons_self _ _)), ?_⟩
      exact ih hc.2 hp.2 (fun e he => hn e (List.mem_cons_of_mem _ he))

/-- A `CA` line whose residue-number column slice (`22–26`) is not parseable
as an integer, so `parseInt` yields `NaN`. -/
def exLineNanRes : JStr :=
  "ATOM      1 CA   GLY Aabcd       7.000   8.000   9.000  1.00  0.00           C".toList

/-- Two atom lines; the second `CA` line has an unparseable residue number. -/
def exContentNan : JStr := exLine1 ++ '\n' :: exLineNanRes

/-- Claim C5, counterexample: when a `CA` line's residue-number columns do
not parse, `parseInt` yields `NaN`, which becomes a backbone map key (JS
`Map` treats `NaN` as a valid key); the resulting backbone sequence contains
a `NaN` `residueIndex` next to a finite one and is neither non-decreasing nor
strictly increasing under the JavaScript number order, where every comparison
against `NaN` is false. -/
theorem backbone_not_sorted_counterexample :
    (backboneSeq exContentNan).map (fun e => e.residueIndex) =
      [JNum.nan, JNum.num 2] ∧
    ¬ List.Chain' (fun a b => jnumLe a.residueIndex b.residueIndex = true)
      (backboneSeq exContentNan) ∧
    ¬ List.Chain' (fun a b => jnumLt a.residueIndex b.residueIndex = true)
      (backboneSeq exContentNan) := by
  have hmap : (backboneSeq exContentNan).map (fun e => e.residueIndex) =
      [JNum.nan, JNum.num 2] := by decide
  refine ⟨hmap, ?_, ?_⟩
  · intro h
    have h' : List.Chain' (fun x y => jnumLe x y = true)
        ((backboneSeq exContentNan).map (fun e => e.residueIndex)) :=
      (List.chain'_map (fun e : BackboneEntry => e.residueIndex)).mpr h
    rw [hmap, List.chain'_cons] at h'
    exact absurd h'.1 (by decide)
  · intro h
    have h' : List.Chain' (fun x y => jnumLt x y = true)
        ((backboneSeq exContentNan).map (fun e => e.residueIndex)) :=
      (List.chain'_map (fun e : BackboneEntry => e.residueIndex)).mpr h
    rw [hmap, List.chain'_cons] at h'
    exact absurd h'.1 (by decide)

/-- Claim C5, amended: for every input text whose accepted `CA` atom records
all have a parseable (finite) residue number, the backbone sequence returned
by the parser is strictly increasing by `residueIndex` (hence sorted
ascending), has at most one entry per residue number, and each entry is
derived deterministically from the last `CA` atom line seen for that
residue.  (When a `CA` residue-number slice does not parse, the `NaN` key
breaks sortedness — see the counterexample.) -/
theorem backbone_sorted_per_residue_lastwins (content : JStr)
    (hfin : ∀ a ∈ acceptedAtoms content,
      a.atomName = kwCA → JNum.isNum a.residueNumber = true) :
    List.Chain' (fun a b => jnumLt a.residueIndex b.residueIndex = true)
      (backboneSeq content) ∧
    (backboneSeq content).Pairwise (fun a b => a.residueIndex ≠ b.residueIndex) ∧
    (∀ e ∈ backboneSeq content,
      ∃ info, lastCA (metaFrom 0 (acceptedAtoms content)) e.residueIndex = some info ∧
        e.position = info.position ∧
        e.secondaryStructure = determineSecondaryStructure info.residueName
          e.residueIndex (finalState content).backboneMap) ∧
    (parseAtomsWithMetadata content).backboneAtoms =
      (if 0 < (backboneSeq content).length then some (backboneSeq content) else none) := by
  obtain ⟨h1, h2, h3, h4⟩ := foldl_processLine_spec (splitLines content) ⟨[], [], [], 0⟩
  have hfold : (finalState content).backboneMap =
      (metaFrom 0 (acceptedAtoms content)).foldl bmapStep [] := by
    show (finalState content).backboneMap = _
    unfold finalState acceptedAtoms
    rw [h4]
  have hinfos : ∀ info ∈ metaFrom 0 (acceptedAtoms content),
      info.atomName = kwCA → JNum.isNum info.residueNumber = true :=
    metaFrom_pred (fun an rn => an = kwCA → JNum.isNum rn = true) 0
      (acceptedAtoms content) hfin
  have hpairm : (finalState content).backboneMap.Pairwise (fun p q => p.1 ≠ q.1) := by
    rw [hfold]
    exact foldl_bmapStep_pairwise _ [] List.Pairwise.nil
  have hkeys : ∀ p ∈ (finalState content).backboneMap, JNum.isNum p.1 = true := by
    rw [hfold]
    exact foldl_bmapStep_keys_isNum _ []
      (fun p hp => absurd hp (List.not_mem_nil _)) hinfos
  have hbseq : backboneSeq content =
      jsSort ((finalState content).backboneMap.map fun kv =>
        { position := kv.2.position
          residueIndex := kv.1
          secondaryStructure :=
            determineSecondaryStructure kv.2.residueName kv.1
              (finalState content).backboneMap }) := rfl
  have hallpre : ∀ e ∈ ((finalState content).backboneMap.map fun kv =>
      ({ position := kv.2.position
         residueIndex := kv.1
         secondaryStructure :=
           determineSecondaryStructure kv.2.residueName kv.1
             (finalState content).backboneMap } : BackboneEntry)),
      JNum.isNum e.residueIndex = true := by
    intro e he
    obtain ⟨kv, hkv, hkve⟩ := List.mem_map.mp he
    rw [← hkve]
    exact hkeys kv hkv
  have hall : ∀ e ∈ backboneSeq content, JNum.isNum e.residueIndex = true := by
    intro e he
    rw [hbseq] at he
    exact hallpre e ((jsSort_perm _).mem_iff.mp he)
  have hchain : List.Chain' (fun a b => cmpKeep a b = true) (backboneSeq content) := by
    rw [hbseq]
    exact chain'_cmpKeep_sort _ hallpre
  have hpairpre : (((finalState content).backboneMap.map fun kv =>
      ({ position := kv.2.position
         residueIndex := kv.1
         secondaryStructure :=
           determineSecondaryStructure kv.2.residueName kv.1
             (finalState content).backboneMap } : BackboneEntry))).Pairwise
      (fun a b => a.residueIndex ≠ b.residueIndex) := by
    refine List.Pairwise.map _ (fun p q h => ?_) hpairm
    exact h
  have hpair : (backboneSeq content).Pairwise
      (fun a b => a.residueIndex ≠ b.residueIndex) := by
    rw [hbseq]
    refine ((jsSort_perm _).pairwise_iff ?_).mpr hpairpre
    intro a b h
    exact Ne.symm h
  refine ⟨chain'_jnumLt_of_cmpKeep _ hchain hpair hall, hpair, ?_, rfl⟩
  intro e he
  rw [hbseq] at he
  obtain ⟨kv, hkv, hkve⟩ := List.mem_map.mp ((jsSort_perm _).mem_iff.mp he)
  have hget : mapGet (finalState content).backboneMap kv.1 = some kv.2 :=
    mapGet_of_mem _ _ _ hpairm hkv
  rw [hfold] at hget
  rw [mapGet_foldl_bmapStep] at hget
  cases hl : lastCA (metaFrom 0 (acceptedAtoms content)) kv.1 with
  | none =>
    rw [hl] at hget
    simp [mapGet] at hget
  | some v =>
    rw [hl] at hget
    simp only at hget
    refine ⟨v, ?_, ?_, ?_⟩
    · rw [← hkve]
      exact hl
    · rw [← hkve]
      simp only
      rw [Option.some.inj hget]
    · rw [← hkve]
      simp only
      rw [Option.some.inj hget]

/-- Two well-formed `CA` lines given out of residue order. -/
def exLine2 : JStr :=
  "ATOM      1 CA   VAL A   1       4.000   5.000   6.000  1.00  0.00           C".toList

def exContent2 : JStr := exLine1 ++ '\n' :: exLine2

theorem backbone_sorted_per_residue_lastwins_witness :
    (∀ a ∈ acceptedAtoms exContent2,
      a.atomName = kwCA → JNum.isNum a.residueNumber = true) ∧
    List.Chain' (fun a b => jnumLt a.residueIndex b.residueIndex = true)
      (backboneSeq exContent2) :=
  ⟨by decide, (backbone_sorted_per_residue_lastwins exContent2 (by decide)).1⟩

end MoleculeViewer
